import Mathlib

/-!
# ELB access log ingestion (`main.go`, function `handle`)

A shallow embedding of the line parser and of the bulk batching loop of
`handle`, and of the library calls they rest on: `strings.Split`,
`strings.Trim`, `strconv.Atoi`, `time.Parse` with the layout `time.RFC3339`,
`Time.UTC().Format`, and `Bulk().Add`, `NumberOfActions`, `Do` and
`BulkResponse.Created` of `olivere/elastic.v3`. Theorems about them follow
the definitions.

Conventions.
* Go strings are byte sequences; they are modelled as lists of characters.
  All separators are ASCII, so splitting bytes and splitting characters agree.
* A run-time panic (index out of range, nil dereference) is `none` in the
  parser and the flag `panicked` of the loop state; nothing runs after it.
  The exit of `log.Fatal` sets the same flag.
* The environment is explicit: each scanned line comes with the value that
  `time.Now()` returns while it is processed, and the backend is a function
  from the number of the bulk call and its requests to the response.
* Each record of the event is given by the lines of the object it names.
  `GetObject` fails for the empty region, and `log.Fatal` then ends the
  process; with a region the object is taken as fetched and scanned into
  lines, and the client of `NewClient` as made. The debug output and the
  warning about the remaining time only write to the log and are left out.
-/

namespace ElbLog

/-- A Go string. -/
abbrev Str := List Char

/-! ## `strings` -/

/-- Put a character in front of the first piece. -/
def headCons (c : Char) : List Str → List Str
  | [] => [[c]]
  | p :: ps => (c :: p) :: ps

/-- The loop of `strings.Split` for a non-empty separator: the pieces between
the successive leftmost, non-overlapping occurrences of `sep`. `skip` counts
the characters of a matched separator that are still to be passed over. -/
def splitFrom (sep : Str) : Nat → Str → List Str
  | _, [] => [[]]
  | skip + 1, _ :: cs => splitFrom sep skip cs
  | 0, c :: cs =>
    if sep.isPrefixOf (c :: cs) then [] :: splitFrom sep (sep.length - 1) cs
    else headCons c (splitFrom sep 0 cs)

/-- `strings.Split(s, sep)`, for the non-empty separators `handle` uses. -/
def Split (s sep : Str) : List Str := splitFrom sep 0 s

/-- `strings.Trim(s, cutset)`: drop the leading and trailing characters that
occur in `cutset`. -/
def Trim (s cutset : Str) : Str :=
  ((s.dropWhile (fun c => cutset.contains c)).reverse.dropWhile
    (fun c => cutset.contains c)).reverse

/-! ## `strconv.Atoi` -/

/-- Value of a run of decimal digits, `none` when a character is no digit. -/
def digitsValue : Str → Nat → Option Nat
  | [], x => some x
  | c :: cs, x =>
    if 48 ≤ c.toNat ∧ c.toNat ≤ 57 then digitsValue cs (x * 10 + (c.toNat - 48)) else none

/-- `strconv.Atoi(s)` with the error dropped, as in `bulk_limit, _ := ...`:
an optional sign and at least one decimal digit; `0` on a syntax error and
the nearest `int` (64 bit) when the value is out of range. -/
def Atoi (s : Str) : Int :=
  let signed : Bool := s.head? = some '-' ∨ s.head? = some '+'
  let neg : Bool := s.head? = some '-'
  let body : Str := if signed then s.drop 1 else s
  match (if body = [] then none else digitsValue body 0) with
  | some n =>
    if neg then (if n ≤ 2 ^ 63 then -(n : Int) else -(2 ^ 63 : Int))
    else (if n < 2 ^ 63 then (n : Int) else (2 ^ 63 - 1 : Int))
  | none => 0

/-! ## `time` -/

/-- A `time.Time`: `sec` counts the seconds since January 1, year 1,
00:00:00 UTC, `nsec` the nanoseconds within the second, `offset` the
seconds east of UTC of the attached location. `Time{}` is all zero. -/
structure Time where
  sec : Int
  nsec : Int
  offset : Int
deriving DecidableEq, Repr

/-- The zero value `Time{}`. -/
def Time.zero : Time := ⟨0, 0, 0⟩

/-- `t.UTC()`: the same instant with the location set to UTC. -/
def Time.UTC (t : Time) : Time := { t with offset := 0 }

/-- `isLeap(year)`. -/
def isLeap (year : Int) : Bool :=
  year % 4 = 0 ∧ (year % 100 ≠ 0 ∨ year % 400 = 0)

/-- The table `daysBefore`: days in a non-leap year before month `m + 1`. -/
def daysBefore (m : Int) : Int :=
  if m = 0 then 0 else if m = 1 then 31 else if m = 2 then 59
  else if m = 3 then 90 else if m = 4 then 120 else if m = 5 then 151
  else if m = 6 then 181 else if m = 7 then 212 else if m = 8 then 243
  else if m = 9 then 273 else if m = 10 then 304 else if m = 11 then 334
  else 365

/-- `daysIn(m, year)`. -/
def daysIn (m year : Int) : Int :=
  if m = 2 ∧ isLeap year then 29 else daysBefore m - daysBefore (m - 1)

/-- `norm(hi, lo, base)`: bring `lo` into `[0, base)`, carrying into `hi`. -/
def norm (hi lo base : Int) : Int × Int :=
  let p : Int × Int :=
    if lo < 0 then (hi - ((-lo - 1) / base + 1), lo + ((-lo - 1) / base + 1) * base)
    else (hi, lo)
  if p.2 ≥ base then (p.1 + p.2 / base, p.2 - p.2 / base * base) else p

/-- `time.Date(year, month, day, hour, min, sec, nsec, time.UTC)`.
Go shifts the year by `absoluteZeroYear = 1 - 400 * 730692556` to work on
unsigned numbers and shifts the result back; the shift being a whole number
of 400-year cycles, this is floor division on years counted from year 1. -/
def Date (year month day hour min sec nsec : Int) : Time :=
  let m := month - 1
  let ym := norm year m 12
  let year := ym.1
  let month := ym.2 + 1
  let sn := norm sec nsec 1000000000
  let nsec := sn.2
  let ms := norm min sn.1 60
  let sec := ms.2
  let hm := norm hour ms.1 60
  let min := hm.2
  let dh := norm day hm.1 24
  let hour := dh.2
  let day := dh.1
  let y := year - 1
  let n := y / 400
  let y := y - 400 * n
  let d := 146097 * n
  let n := y / 100
  let y := y - 100 * n
  let d := d + 36524 * n
  let n := y / 4
  let y := y - 4 * n
  let d := d + 1461 * n
  let d := d + 365 * y
  let d := d + daysBefore (month - 1)
  let d := if isLeap year ∧ month ≥ 3 then d + 1 else d
  let d := d + (day - 1)
  ⟨d * 86400 + (hour * 3600 + min * 60 + sec), nsec, 0⟩

/-- The tail of `absDate`: month and day of the month from the day of the
year `yd` (counted from 0) and the leap flag of the year. -/
def monthDay (leap : Bool) (yd : Int) : Int × Int :=
  if leap ∧ yd = 31 + 29 - 1 then (2, 29)
  else
    let day := if leap ∧ yd > 31 + 29 - 1 then yd - 1 else yd
    let month := day / 31
    let e := daysBefore (month + 1)
    if day ≥ e then (month + 1 + 1, day - e + 1)
    else (month + 1, day - daysBefore month + 1)

/-- `absDate(abs, true)` on the day count `d` (days since January 1, year 1):
year, month and day of the month. -/
def absDate (d : Int) : Int × Int × Int :=
  let n := d / 146097
  let y := 400 * n
  let d := d - 146097 * n
  let n := d / 36524
  let n := n - n / 4
  let y := y + 100 * n
  let d := d - 36524 * n
  let n := d / 1461
  let y := y + 4 * n
  let d := d - 1461 * n
  let n := d / 365
  let n := n - n / 4
  let y := y + n
  let d := d - 365 * n
  let year := y + 1
  (year, monthDay (isLeap year) d)

/-- `absClock(abs)`: hour, minute and second within the day. -/
def absClock (abs : Int) : Int × Int × Int :=
  let sec := abs % 86400
  let hour := sec / 3600
  let sec := sec - hour * 3600
  let min := sec / 60
  let sec := sec - min * 60
  (hour, min, sec)

/-- The decimal digit `d`. -/
def digitChar (d : Nat) : Char := Char.ofNat (48 + d)

/-- The loop of `appendInt` that assembles the decimal digits of `u`. -/
def digitsLoop : Nat → Nat → Str → Str
  | 0, u, acc => digitChar u :: acc
  | fuel + 1, u, acc =>
    if u ≥ 10 then digitsLoop fuel (u / 10) (digitChar (u % 10) :: acc)
    else digitChar u :: acc

/-- `appendInt(b, x, width)` applied to an empty `b`: a minus sign for a
negative `x`, then the digits, zero-padded to `width`. -/
def appendInt (x : Int) (width : Nat) : Str :=
  let u := x.natAbs
  let ds := digitsLoop u u []
  (if x < 0 then ['-'] else []) ++ List.replicate (width - ds.length) '0' ++ ds

/-- `t.Format("2006-01-02T15:04:05-0700")`. -/
def Time.FormatTimestamp (t : Time) : Str :=
  let abs := t.sec + t.offset
  let date := absDate (abs / 86400)
  let clock := absClock abs
  let zone := Int.tdiv t.offset 60
  let sign : Str := if zone < 0 then ['-'] else ['+']
  let zone := if zone < 0 then -zone else zone
  appendInt date.1 4 ++ '-' :: appendInt date.2.1 2 ++ '-' :: appendInt date.2.2 2
    ++ 'T' :: appendInt clock.1 2 ++ ':' :: appendInt clock.2.1 2
    ++ ':' :: appendInt clock.2.2 2
    ++ sign ++ appendInt (zone / 60) 2 ++ appendInt (zone % 60) 2

/-- `t.Format("2006.01.02")`. -/
def Time.FormatDay (t : Time) : Str :=
  let abs := t.sec + t.offset
  let date := absDate (abs / 86400)
  appendInt date.1 4 ++ '.' :: appendInt date.2.1 2 ++ '.' :: appendInt date.2.2 2

/-! ### `time.Parse(time.RFC3339, value)`

The layout `"2006-01-02T15:04:05Z07:00"` is fixed, so the loop of `parse`
over the layout chunks is unrolled: one definition for each chunk. `none`
stands for the returned error (of either kind, syntax or range).

As in the library, the hour is read with `getnum(value, false)` (one or two
digits), a fractional second is accepted after the seconds although the
layout has none (its digits beyond the ninth are dropped), the seconds go up
to 59 only, `T` and `Z` are upper case, the offset is not range checked, and
the day is checked against the month at the end. -/

/-- Whether `c` is a decimal digit. -/
def isDigitChar (c : Char) : Bool := 48 ≤ c.toNat ∧ c.toNat ≤ 57

/-- `isDigit(s, i)`. -/
def isDigit (s : Str) (i : Nat) : Bool :=
  match s[i]? with
  | some c => isDigitChar c
  | none => false

/-- `leadingInt(s)`: the leading run of digits as a number, and the rest. -/
def leadingInt : Str → Nat → Option (Nat × Str)
  | [], x => some (x, [])
  | c :: cs, x =>
    if ¬ isDigitChar c then some (x, c :: cs)
    else if x > 2 ^ 63 / 10 then none
    else if x * 10 + (c.toNat - 48) > 2 ^ 63 then none
    else leadingInt cs (x * 10 + (c.toNat - 48))

/-- `atoi(s)` of package `time`: an optional sign, then digits only. -/
def atoi (s : Str) : Option Int :=
  let signed : Bool := s.head? = some '-' ∨ s.head? = some '+'
  let neg : Bool := s.head? = some '-'
  let body : Str := if signed then s.drop 1 else s
  match leadingInt body 0 with
  | some (q, []) =>
    let x : Int := if q < 2 ^ 63 then (q : Int) else (q : Int) - 2 ^ 64
    some (if neg then -x else x)
  | _ => none

/-- `getnum(s, fixed)`: a number of one or two digits, of exactly two when
`fixed`. -/
def getnum (s : Str) (fixed : Bool) : Option (Int × Str) :=
  match s with
  | c0 :: c1 :: r =>
    if ¬ isDigitChar c0 then none
    else if ¬ isDigitChar c1 then
      if fixed then none else some (((c0.toNat - 48 : Nat) : Int), c1 :: r)
    else some (((c0.toNat - 48 : Nat) : Int) * 10 + ((c1.toNat - 48 : Nat) : Int), r)
  | [c0] =>
    if ¬ isDigitChar c0 then none
    else if fixed then none else some (((c0.toNat - 48 : Nat) : Int), [])
  | [] => none

/-- `skip(value, lit)` for a literal of one character other than a space. -/
def skip (value : Str) (lit : Char) : Option Str :=
  match value with
  | c :: r => if c = lit then some r else none
  | [] => none

/-- A condition whose failure is an error. -/
def check (b : Bool) : Option Unit := if b then some () else none

/-- `parseNanoseconds(value, nbytes)`. -/
def parseNanoseconds (value : Str) (nbytes : Nat) : Option Int :=
  let value := if nbytes > 10 then value.take 10 else value
  let nbytes := if nbytes > 10 then 10 else nbytes
  match atoi ((value.take nbytes).drop 1) with
  | some ns => if ns < 0 then none else some (ns * 10 ^ (10 - nbytes))
  | none => none

/-- Chunk `2006`: four characters, the first a digit, read by `atoi`. -/
def stdLongYear (value : Str) : Option (Int × Str) :=
  (check (4 ≤ value.length ∧ isDigit value 0)).bind fun _ =>
  (atoi (value.take 4)).bind fun year => some (year, value.drop 4)

/-- Chunks `01`, `02`, `15`, `04`, `05`: `getnum` and the range check that
follows it (`lo ≤ n ≤ hi`). -/
def stdNum (value : Str) (fixed : Bool) (lo hi : Int) : Option (Int × Str) :=
  (getnum value fixed).bind fun n =>
  (check (lo ≤ n.1 ∧ n.1 ≤ hi)).bind fun _ => some n

/-- The special case after the seconds: a fractional second in the input
that the layout does not have. -/
def stdFrac (value : Str) : Option (Int × Str) :=
  match value with
  | c :: d :: r =>
    if (c = '.' ∨ c = ',') ∧ isDigitChar d then
      let n := 2 + (r.takeWhile isDigitChar).length
      (parseNanoseconds value n).bind fun nsec => some (nsec, value.drop n)
    else some (0, value)
  | _ => some (0, value)

/-- Chunk `Z07:00`: `Z`, or a sign, two digits, a colon and two digits, read
by `getnum(·, true)`, the hours at most 24 and the minutes at most 60; the
result is the zone offset in seconds. -/
def stdISO8601ColonTZ (value : Str) : Option (Int × Str) :=
  if value.head? = some 'Z' then some (0, value.drop 1)
  else
    match value with
    | sign :: h0 :: h1 :: colon :: m0 :: m1 :: r =>
      (check (colon = ':')).bind fun _ =>
      (getnum [h0, h1] true).bind fun hr =>
      (getnum [m0, m1] true).bind fun mm =>
      (check (hr.1 ≤ 24 ∧ mm.1 ≤ 60)).bind fun _ =>
      let zoneOffset := (hr.1 * 60 + mm.1) * 60
      if sign = '+' then some (zoneOffset, r)
      else if sign = '-' then some (-zoneOffset, r)
      else none
    | _ => none

/-- `time.Parse(time.RFC3339, value)`; `none` when it returns an error. -/
def timeParse (value : Str) : Option Time :=
  match stdLongYear value with
  | none => none
  | some year =>
  match skip year.2 '-' with
  | none => none
  | some value =>
  match stdNum value true 1 12 with
  | none => none
  | some month =>
  match skip month.2 '-' with
  | none => none
  | some value =>
  match stdNum value true 0 99 with
  | none => none
  | some day =>
  match skip day.2 'T' with
  | none => none
  | some value =>
  match stdNum value false 0 23 with
  | none => none
  | some hour =>
  match skip hour.2 ':' with
  | none => none
  | some value =>
  match stdNum value true 0 59 with
  | none => none
  | some min =>
  match skip min.2 ':' with
  | none => none
  | some value =>
  match stdNum value true 0 59 with
  | none => none
  | some sec =>
  match stdFrac sec.2 with
  | none => none
  | some nsec =>
  match stdISO8601ColonTZ nsec.2 with
  | none => none
  | some zone =>
  if zone.2 ≠ [] then none
  else if ¬ (1 ≤ day.1 ∧ day.1 ≤ daysIn month.1 year.1) then none
  else
    let t := Date year.1 month.1 day.1 hour.1 min.1 sec.1 nsec.1
    some { sec := t.sec - zone.1, nsec := t.nsec, offset := zone.1 }

/-! ## The line parser of `handle` (lines 245-270) -/

/-- The document `elog`, a `map[string]string` with a fixed set of keys:
one field for each key (`log_name` for `@log_name`, `timestamp` for
`@timestamp`). -/
structure Elog where
  log_name : Str
  timestamp : Str
  elb : Str
  client : Str
  backend : Str
  requestprocessingtime : Str
  backendprocessingtime : Str
  responseprocessingtime : Str
  elbstatuscode : Str
  backendstatuscode : Str
  receivedbytes : Str
  sentbytes : Str
  requesttype : Str
  requesturl : Str
  requestprotocol : Str
  useragent : Str
  sslcipher : Str
  sslprotocol : Str
deriving DecidableEq, Repr

/-- The string `" "` (one space). -/
def space : Str := [' ']

/-- The string of one double quote. -/
def quote : Str := ['"']

/-- The delimiter quote-space-quote. -/
def quoteSpaceQuote : Str := ['"', ' ', '"']

/-- The time `t` of line 247: the parsed first field, or `Time{}` when
`time.Parse` returns an error. -/
def lineTime (oline : Str) : Time :=
  match (Split oline space)[0]? with
  | some f => (timeParse f).getD Time.zero
  | none => Time.zero

/-- Whether line 249 logs `Error parsing log date`. -/
def lineTimeError (oline : Str) : Bool :=
  match (Split oline space)[0]? with
  | some f => (timeParse f).isNone
  | none => true

/-- Lines 245-270: the document built from the line `oline` (`fields` is the
slice `line` of the source). An index expression `a[i]` is rendered by
`a[i]?`: `none` is the run-time panic `index out of range`. -/
def parseLine (oline : Str) : Option Elog :=
  let fields := Split oline space
  let t := lineTime oline
  match (Split oline quoteSpaceQuote)[1]? with
  | none => none
  | some seg =>
  let temp := Split seg quote
  match fields[1]?, fields[2]?, fields[3]?, fields[4]?, fields[5]?, fields[6]?, fields[7]?,
    fields[8]?, fields[9]?, fields[10]?, fields[11]?, fields[12]?, fields[13]? with
  | some l1, some l2, some l3, some l4, some l5, some l6, some l7, some l8, some l9,
    some l10, some l11, some l12, some l13 =>
    match temp[0]?, temp[1]? with
    | some t0, some t1 =>
      match (Split t1 space)[1]?, (Split t1 space)[2]? with
      | some c1, some c2 =>
        some {
          log_name := "elb_access_log".toList
          timestamp := t.UTC.FormatTimestamp
          elb := l1
          client := l2
          backend := l3
          requestprocessingtime := l4
          backendprocessingtime := l5
          responseprocessingtime := l6
          elbstatuscode := l7
          backendstatuscode := l8
          receivedbytes := l9
          sentbytes := l10
          requesttype := Trim l11 quote
          requesturl := l12
          requestprotocol := Trim l13 quote
          useragent := t0
          sslcipher := c1
          sslprotocol := c2 }
      | _, _ => none
    | _, _ => none
  | _, _, _, _, _, _, _, _, _, _, _, _, _ => none

/-! ## Configuration (lines 23-42 and 168-172) -/

/-- The table `Config`. -/
def Config : List (Str × List (Str × Str)) :=
  [("LIVE".toList,
      [("debug".toList, "false".toList), ("elk_url".toList, "http://<IP>:9200".toList),
       ("bulk_limit".toList, "6000".toList), ("region".toList, "eu-west-1".toList)]),
   ("DEV".toList,
      [("debug".toList, "false".toList), ("elk_url".toList, "http://<IP>:9200".toList),
       ("bulk_limit".toList, "6000".toList), ("region".toList, "eu-west-1".toList)]),
   ("LOCAL".toList,
      [("debug".toList, "true".toList), ("elk_url".toList, "http://127.0.0.1:9200".toList),
       ("bulk_limit".toList, "6000".toList), ("region".toList, "eu-west-1".toList)])]

/-- The map expression `Config[env][key]`: the zero value `""` when either
key is missing. -/
def configValue (env key : Str) : Str :=
  match Config.lookup env with
  | some m => (m.lookup key).getD []
  | none => []

/-- Lines 168-169: `env`, the last piece of the function ARN split on `:`. -/
def envOf (arn : Str) : Str := ((Split arn [':']).getLast?).getD []

/-- Line 172: `bulk_limit`, with the error of `strconv.Atoi` dropped. -/
def bulkLimit (arn : Str) : Int := Atoi (configValue (envOf arn) "bulk_limit".toList)

/-! ## The bulk service (`elastic.v3`) and the loop of `handle` -/

/-- A bulk index request as built in lines 276-279. -/
structure BulkIndexRequest where
  index : Str
  typ : Str
  doc : Elog
deriving DecidableEq, Repr

/-- The fields of a `BulkResponseItem` that `handle` reads. -/
structure BulkResponseItem where
  error : Str
  status : Int
deriving DecidableEq, Repr

/-- A `BulkResponse`: its items, each under the name of its action. -/
structure BulkResponse where
  items : List (Str × BulkResponseItem)
deriving DecidableEq, Repr

/-- `r.ByAction(action)`: the results stored under `action`. -/
def BulkResponse.ByAction (r : BulkResponse) (action : Str) : List BulkResponseItem :=
  (r.items.filter (fun it => it.1 = action)).map (fun it => it.2)

/-- `r.Created()`. -/
def BulkResponse.Created (r : BulkResponse) : List BulkResponseItem :=
  r.ByAction "create".toList

/-- What `handle` writes with `log.Println`, `log.Printf` and `log.Fatal` outside of the
debug mode, by source line. -/
inductive LogEntry where
  /-- line 249: `Error parsing log date` -/
  | dateError
  /-- lines 290 and 313: `ELK bulk indexing error` -/
  | bulkError
  /-- lines 295 and 318: `Some documents haven't been created`, with the
  number `actions - len(created)` -/
  | notCreated (missing : Int)
  /-- lines 297 and 320: index, `Error` and `Status` of `created[i]` -/
  | item (i : Nat) (error : Str) (status : Int)
  /-- line 324: `Lines processed`, with `num` -/
  | linesProcessed (num : Int)
  /-- line 225: `Failed to get object`, written by `log.Fatal` -/
  | getObjectFailed
deriving DecidableEq, Repr

/-- The backend as the loop sees it: the outcome of `bulkRequest.Do()` for
the `k`-th call of the invocation with the given requests; `none` is an
error, returned with a nil response. -/
abbrev Backend := Nat → List BulkIndexRequest → Option BulkResponse

/-- The state of the loop over the lines of one object: the pending requests
of `bulkRequest`, the counter `num`, the bodies of the bulk calls made so
far, the log, and whether the run has ended (the goroutine has panicked, or
`log.Fatal` has ended the process). -/
structure Session where
  requests : List BulkIndexRequest
  num : Int
  calls : List (List BulkIndexRequest)
  log : List LogEntry
  panicked : Bool
deriving DecidableEq, Repr

/-- The loop of lines 296-298 and 319-321 from index `i` on. -/
def itemLog : Nat → List BulkResponseItem → List LogEntry
  | _, [] => []
  | i, it :: rest => LogEntry.item i it.error it.status :: itemLog (i + 1) rest

/-- Lines 293-299 and 316-322: the log written for the slice `created`
after a call with `actions` requests. -/
def createdLog (actions : Nat) (created : List BulkResponseItem) : List LogEntry :=
  if created.length ≠ actions then
    LogEntry.notCreated ((actions : Int) - (created.length : Int)) :: itemLog 0 created
  else []

/-- Lines 288-299 and 311-322: `bulkRequest.Do()` and what follows. A
successful `Do` resets the service; on an error the response is nil, the
error is logged, and `bulkResponse.Created()` dereferences the nil pointer. -/
def flush (backend : Backend) (s : Session) : Session :=
  match backend s.calls.length s.requests with
  | none =>
    { s with calls := s.calls ++ [s.requests], log := s.log ++ [LogEntry.bulkError],
             panicked := true }
  | some resp =>
    { s with requests := [], calls := s.calls ++ [s.requests],
             log := s.log ++ createdLog s.requests.length resp.Created }

/-- The request of lines 276-279 for the document `elog`, `now` being the
value of `time.Now()`. -/
def indexRequest (now : Time) (elog : Elog) : BulkIndexRequest :=
  { index := "logstash-".toList ++ now.UTC.FormatDay, typ := "elblog".toList, doc := elog }

/-- Lines 245-282: parse the line and add its request to `bulkRequest`; the
state is the one in which the comparison of line 283 is evaluated. The input
pairs the scanned line with the value `time.Now()` returns in line 277. -/
def addLine (s : Session) (inp : Str × Time) : Session :=
  let s := if lineTimeError inp.1 then { s with log := s.log ++ [LogEntry.dateError] } else s
  match parseLine inp.1 with
  | none => { s with panicked := true }
  | some elog => { s with requests := s.requests ++ [indexRequest inp.2 elog] }

/-- One iteration of the loop of lines 238-302. -/
def step (bulk_limit : Int) (backend : Backend) (s : Session) (inp : Str × Time) : Session :=
  if s.panicked then s
  else
    let s := addLine s inp
    if s.panicked then s
    else
      let s := if (s.requests.length : Int) = bulk_limit then flush backend s else s
      if s.panicked then s else { s with num := s.num + 1 }

/-- The loop of lines 238-302 over the scanned lines. -/
def stream (bulk_limit : Int) (backend : Backend) (s : Session)
    (lines : List (Str × Time)) : Session :=
  lines.foldl (step bulk_limit backend) s

/-- Lines 233-324 for one record, whose object has been fetched and is
scanned into `lines`: a fresh `bulkRequest` and `num`, the loop, the flush of
the rest and the final log line. -/
def session (bulk_limit : Int) (backend : Backend) (s0 : Session)
    (lines : List (Str × Time)) : Session :=
  if s0.panicked then s0
  else
    let s := stream bulk_limit backend { s0 with requests := [], num := 1 } lines
    if s.panicked then s
    else
      let s := if s.requests.length > 0 then flush backend s else s
      if s.panicked then s else { s with log := s.log ++ [LogEntry.linesProcessed s.num] }

/-- The state in which `handle` enters the loop over the records. -/
def Session.init : Session :=
  { requests := [], num := 1, calls := [], log := [], panicked := false }

/-- Lines 199-226: `svc.GetObject` for one record, `object` being the lines
of the object the record names. The client is made for the region
`Config[env]["region"]`; with the empty region the request is refused
(`MissingRegion`) and an error is returned. -/
def GetObject (region : Str) (object : List (Str × Time)) : Option (List (Str × Time)) :=
  if region = [] then none else some object

/-- One iteration of the loop over the records (lines 198-325): the object
is fetched, and when that fails `log.Fatal` in line 225 ends the process
before any line is read; otherwise the lines of the object are processed. -/
def record (arn : Str) (backend : Backend) (s : Session) (object : List (Str × Time)) :
    Session :=
  if s.panicked then s
  else
    match GetObject (configValue (envOf arn) "region".toList) object with
    | none => { s with log := s.log ++ [LogEntry.getObjectFailed], panicked := true }
    | some lines => session (bulkLimit arn) backend s lines

/-- The function `handle` outside of the debug mode: the bulk limit and the
region of the invoked environment and the loop over the records of the event
(lines 198-325), each record given by the lines of the object it names. -/
def handle (arn : Str) (backend : Backend) (records : List (List (Str × Time))) : Session :=
  records.foldl (record arn backend) Session.init

/-! ## The flush decisions -/

/-- The values of `actions` with which the comparison of line 283 is
evaluated while the loop of lines 238-302 runs over `lines` from the state
`s`, in order: one after each line that has been added, none once the run has
ended. -/
def streamActions (bulk_limit : Int) (backend : Backend) :
    Session → List (Str × Time) → List Nat
  | _, [] => []
  | s, inp :: rest =>
    (if s.panicked ∨ (addLine s inp).panicked then []
      else [(addLine s inp).requests.length])
      ++ streamActions bulk_limit backend (step bulk_limit backend s inp) rest

/-- The values of `actions` with which the flush decisions of one record are
evaluated: those of the loop, and the one of line 306 when the loop has run
to the end of the stream. -/
def sessionActions (bulk_limit : Int) (backend : Backend) (s0 : Session)
    (lines : List (Str × Time)) : List Nat :=
  if s0.panicked then []
  else
    streamActions bulk_limit backend { s0 with requests := [], num := 1 } lines
      ++ (if (stream bulk_limit backend { s0 with requests := [], num := 1 } lines).panicked
          then []
          else [(stream bulk_limit backend { s0 with requests := [], num := 1 }
            lines).requests.length])

/-- The values of `actions` with which the flush decisions of `handle` are
evaluated, over all records from the state `s` on: none for a record whose
object is not fetched. -/
def handleActions (arn : Str) (backend : Backend) :
    Session → List (List (Str × Time)) → List Nat
  | _, [] => []
  | s, object :: rest =>
    (if s.panicked then []
      else
        match GetObject (configValue (envOf arn) "region".toList) object with
        | none => []
        | some lines => sessionActions (bulkLimit arn) backend s lines)
      ++ handleActions arn backend (record arn backend s object) rest

/-! ## The calendar, as the statements read it -/

/-- Days from January 1, year 1 to the given date of the proleptic Gregorian
calendar: 365 for each year before, the leap days of those years, the days
of the months before, and the days of the month before. -/
def civilDays (y m d : Int) : Int :=
  365 * (y - 1) + (y - 1) / 4 - (y - 1) / 100 + (y - 1) / 400
    + daysBefore (m - 1) + (if isLeap y ∧ m ≥ 3 then 1 else 0) + (d - 1)

/-- Seconds from January 1, year 1, 00:00:00 to the given civil time. -/
def civilSeconds (y m d h mi s : Int) : Int :=
  civilDays y m d * 86400 + (h * 3600 + mi * 60 + s)

/-! ## The wire format of a log line -/

/-- The tokens of a log line in the wire format of the specification:
`timestamp elb client backend req_proc backend_proc resp_proc elb_status
backend_status recv_bytes sent_bytes "method url protocol" "user_agent"
cipher protocol_version`. -/
structure WireLine where
  timestamp : Str
  elb : Str
  client : Str
  backend : Str
  req_proc : Str
  backend_proc : Str
  resp_proc : Str
  elb_status : Str
  backend_status : Str
  recv_bytes : Str
  sent_bytes : Str
  method : Str
  url : Str
  protocol : Str
  user_agent : Str
  cipher : Str
  protocol_version : Str
deriving DecidableEq, Repr

/-- The tokens other than the user agent. -/
def WireLine.plainTokens (w : WireLine) : List Str :=
  [w.timestamp, w.elb, w.client, w.backend, w.req_proc, w.backend_proc, w.resp_proc,
   w.elb_status, w.backend_status, w.recv_bytes, w.sent_bytes, w.method, w.url, w.protocol,
   w.cipher, w.protocol_version]

/-- Every token but the user agent has no space and no double quote, and the
user agent has no double quote. -/
def WireLine.WellFormed (w : WireLine) : Prop :=
  (∀ tok ∈ w.plainTokens, ' ' ∉ tok ∧ '"' ∉ tok) ∧ '"' ∉ w.user_agent

instance (w : WireLine) : Decidable w.WellFormed := by
  unfold WireLine.WellFormed; infer_instance

/-- The line: the tokens joined by single spaces, the request and the user
agent in double quotes. -/
def WireLine.render (w : WireLine) : Str :=
  w.timestamp ++ ' ' :: (w.elb ++ ' ' :: (w.client ++ ' ' :: (w.backend ++ ' ' ::
    (w.req_proc ++ ' ' :: (w.backend_proc ++ ' ' :: (w.resp_proc ++ ' ' ::
    (w.elb_status ++ ' ' :: (w.backend_status ++ ' ' :: (w.recv_bytes ++ ' ' ::
    (w.sent_bytes ++ ' ' :: ('"' :: (w.method ++ ' ' :: (w.url ++ ' ' ::
    (w.protocol ++ '"' :: ' ' :: '"' ::
    (w.user_agent ++ '"' :: ' ' :: (w.cipher ++ ' ' :: w.protocol_version))))))))))))))))

/-- The document the wire format assigns to a line, up to `@timestamp`. -/
def WireLine.document (w : WireLine) (timestamp : Str) : Elog :=
  { log_name := "elb_access_log".toList
    timestamp := timestamp
    elb := w.elb
    client := w.client
    backend := w.backend
    requestprocessingtime := w.req_proc
    backendprocessingtime := w.backend_proc
    responseprocessingtime := w.resp_proc
    elbstatuscode := w.elb_status
    backendstatuscode := w.backend_status
    receivedbytes := w.recv_bytes
    sentbytes := w.sent_bytes
    requesttype := w.method
    requesturl := w.url
    requestprotocol := w.protocol
    useragent := w.user_agent
    sslcipher := w.cipher
    sslprotocol := w.protocol_version }

/-! ## Notions the statements use -/

/-- The request a line gives rise to: its document, targeted at the index
of the clock reading paired with the line; `none` when the parser panics. -/
def requestOf (inp : Str × Time) : Option BulkIndexRequest :=
  (parseLine inp.1).map (indexRequest inp.2)

/-- The documents of the lines, in line order. -/
def docsOf (lines : List (Str × Time)) : List Elog :=
  lines.filterMap (fun inp => parseLine inp.1)

/-- The request expected for a line read at the clock reading paired with
it: the document of the line, of type `elblog`, for the index `logstash-`
followed by the UTC date of that reading as `YYYY.MM.DD`. -/
def lineRequest (inp : Str × Time) : Option BulkIndexRequest :=
  (parseLine inp.1).map fun doc =>
    { index := "logstash-".toList ++ inp.2.UTC.FormatDay, typ := "elblog".toList, doc := doc }

/-- The number of lines whose requests go into one bulk call, for a stream
of `n` lines: the bulk limit; with a limit below one no call is made before
the end of the stream, and one call then takes the requests of all lines. -/
def chunkSize (L : Int) (n : Nat) : Nat := if 1 ≤ L then L.toNat else n + 1

/-- A line that lacks the fields the parser indexes: fewer than 14 fields
between single spaces, or no delimiter quote-space-quote, or, after the
delimiter, no closing quote of the user agent or fewer than two
space-separated values behind it. -/
def Malformed (oline : Str) : Prop :=
  (Split oline space).length < 14 ∨ (Split oline quoteSpaceQuote).length < 2 ∨
    ∀ seg, (Split oline quoteSpaceQuote)[1]? = some seg →
      (Split seg quote).length < 2 ∨
        ∀ t1, (Split seg quote)[1]? = some t1 → (Split t1 space).length < 3

/-- The example line of the specification. -/
def exampleLine : Str :=
  ("2015-05-13T23:39:43.945958Z my-elb 192.168.131.39:2817 10.0.0.1:80 0.000073 0.001048 "
    ++ "0.000057 200 200 0 29 \"GET http://example.com:80/ HTTP/1.1\" \"curl/7.38.0\" - -").toList

/-- The tokens of the example line. -/
def exampleWire : WireLine :=
  { timestamp := "2015-05-13T23:39:43.945958Z".toList
    elb := "my-elb".toList
    client := "192.168.131.39:2817".toList
    backend := "10.0.0.1:80".toList
    req_proc := "0.000073".toList
    backend_proc := "0.001048".toList
    resp_proc := "0.000057".toList
    elb_status := "200".toList
    backend_status := "200".toList
    recv_bytes := "0".toList
    sent_bytes := "29".toList
    method := "GET".toList
    url := "http://example.com:80/".toList
    protocol := "HTTP/1.1".toList
    user_agent := "curl/7.38.0".toList
    cipher := "-".toList
    protocol_version := "-".toList }

/-- The document of the example line. -/
def exampleDoc : Elog :=
  exampleWire.document "2015-05-13T23:39:43+0000".toList

/-- A backend that indexes every document: one `create` result with status
201 for each request. -/
def createAll : Backend :=
  fun _ reqs => some ⟨reqs.map (fun _ => ("create".toList, ⟨[], 201⟩))⟩

/-- A backend whose every call fails. -/
def failAll : Backend := fun _ _ => none

/-- A clock reading: noon of May 14, 2015 (UTC). -/
def noon : Time := Date 2015 5 14 12 0 0 0

/-- A backend that reports all requests but the last as created: a `create`
result with status 201 for each of them, and for the last request a result
under `index` with an error and status 400. -/
def createAllButLast : Backend :=
  fun _ reqs => some ⟨(reqs.dropLast.map (fun _ => ("create".toList, ⟨[], 201⟩)))
    ++ [("index".toList, ⟨"mapper_parsing_exception".toList, 400⟩)]⟩

/-- An ARN with the alias `LIVE`. -/
def liveArn : Str := "arn:aws:lambda:eu-west-1:123456789012:function:elb-logs:LIVE".toList

/-- An ARN without an alias: its last piece is the function name. -/
def plainArn : Str := "arn:aws:lambda:eu-west-1:123456789012:function:elb-logs".toList

/-- The pending requests stay within the limit `L`: below it while the loop
runs, at most `L` once it has panicked. -/
def Bounded (L : Int) (s : Session) : Prop :=
  (s.requests.length : Int) < L ∨ (s.panicked = true ∧ (s.requests.length : Int) ≤ L)

/-- A clock reading one second before midnight of May 13, 2015 (UTC). -/
def beforeMidnight : Time := Date 2015 5 13 23 59 59 0

/-- A clock reading one second after that midnight. -/
def afterMidnight : Time := Date 2015 5 14 0 0 1 0

/-- The state of the loop after the requests `done` have been built, all calls
having succeeded: full batches of `L` have been submitted in order, the rest
is pending. -/
def BatchInv (L : Nat) (s : Session) (done : List BulkIndexRequest) : Prop :=
  s.panicked = false ∧ ∃ q r, done.length = q * L + r ∧ r < L ∧
    s.calls.flatten = done.take (q * L) ∧ s.calls.map List.length = List.replicate q L ∧
    s.requests = done.drop (q * L)

/-- The state of the loop after the lines `seen` have been added, whatever
the backend answers: the calls made since `base` are the first chunks of `L`
lines of `seen`, each carrying the requests of its lines in order, and while
the run goes on the requests of the remaining lines are pending. -/
def ChunkInv (L : Nat) (base : List (List BulkIndexRequest)) (s : Session)
    (seen : List (Str × Time)) : Prop :=
  (∀ inp ∈ seen, (parseLine inp.1).isSome) ∧
  ∃ q, q * L ≤ seen.length ∧
    s.calls = base ++ (List.range q).map
      (fun j => ((seen.drop (j * L)).take L).filterMap requestOf) ∧
    (s.panicked = false →
      seen.length < q * L + L ∧ s.requests = (seen.drop (q * L)).filterMap requestOf)
/-! ## RFC 3339 timestamps -/

/-- The number `n < 100` in two decimal digits. -/
def two (n : Nat) : Str := [digitChar (n / 10), digitChar (n % 10)]

/-- The number `n < 10000` in four decimal digits. -/
def four (n : Nat) : Str :=
  [digitChar (n / 1000), digitChar (n / 100 % 10), digitChar (n / 10 % 10), digitChar (n % 10)]

/-- The offset of an RFC 3339 timestamp: `Z`, or a sign with hours and
minutes. -/
inductive Zone where
  | Z
  | plus (h m : Nat)
  | minus (h m : Nat)
deriving DecidableEq, Repr

/-- The text of an offset. -/
def Zone.render : Zone → Str
  | Zone.Z => ['Z']
  | Zone.plus h m => '+' :: (two h ++ ':' :: two m)
  | Zone.minus h m => '-' :: (two h ++ ':' :: two m)

/-- The seconds east of UTC of an offset. -/
def Zone.seconds : Zone → Int
  | Zone.Z => 0
  | Zone.plus h m => ((h : Int) * 60 + (m : Int)) * 60
  | Zone.minus h m => -(((h : Int) * 60 + (m : Int)) * 60)

/-- Hours up to 23 and minutes up to 59. -/
def Zone.Valid : Zone → Prop
  | Zone.Z => True
  | Zone.plus h m => h ≤ 23 ∧ m ≤ 59
  | Zone.minus h m => h ≤ 23 ∧ m ≤ 59

/-- The parts of an RFC 3339 timestamp `YYYY-MM-DDTHH:MM:SS[.f...](Z|±HH:MM)`;
`frac` lists the digits of the fractional second, none when there is no
fraction. -/
structure Rfc3339 where
  year : Nat
  month : Nat
  day : Nat
  hour : Nat
  minute : Nat
  second : Nat
  frac : List Nat
  zone : Zone
deriving DecidableEq, Repr

/-- The text of the fractional second. -/
def fracRender (frac : List Nat) : Str :=
  if frac = [] then [] else '.' :: frac.map digitChar

/-- The text of a timestamp. -/
def Rfc3339.render (r : Rfc3339) : Str :=
  four r.year ++ '-' :: (two r.month ++ '-' :: (two r.day ++ 'T' :: (two r.hour ++ ':' ::
    (two r.minute ++ ':' :: (two r.second ++ (fracRender r.frac ++ r.zone.render))))))

/-- The ranges of the parts: a date of the calendar, a time of day with
seconds up to 59, decimal digits, an offset within a day. -/
def Rfc3339.Valid (r : Rfc3339) : Prop :=
  r.year ≤ 9999 ∧ 1 ≤ r.month ∧ r.month ≤ 12 ∧ 1 ≤ r.day ∧
    (r.day : Int) ≤ daysIn r.month r.year ∧ r.hour ≤ 23 ∧ r.minute ≤ 59 ∧ r.second ≤ 59 ∧
    (∀ d ∈ r.frac, d ≤ 9) ∧ r.zone.Valid

/-- The text of a timestamp with the letter `tee` between date and time and
the letter `zed` for the offset `Z`. -/
def Rfc3339.renderAs (r : Rfc3339) (tee zed : Char) : Str :=
  four r.year ++ '-' :: (two r.month ++ '-' :: (two r.day ++ tee :: (two r.hour ++ ':' ::
    (two r.minute ++ ':' :: (two r.second ++ (fracRender r.frac ++
      (if r.zone = Zone.Z then [zed] else r.zone.render)))))))

/-- The ranges of the parts in the grammar of RFC 3339 (section 5.6): as
`Valid`, with a second of up to 60 for a leap second. -/
def Rfc3339.Grammar (r : Rfc3339) : Prop :=
  r.year ≤ 9999 ∧ 1 ≤ r.month ∧ r.month ≤ 12 ∧ 1 ≤ r.day ∧
    (r.day : Int) ≤ daysIn r.month r.year ∧ r.hour ≤ 23 ∧ r.minute ≤ 59 ∧ r.second ≤ 60 ∧
    (∀ d ∈ r.frac, d ≤ 9) ∧ r.zone.Valid

/-- A valid RFC 3339 timestamp: the text of parts in the ranges of the
grammar, the letters `T` and `Z` in upper or lower case. -/
def IsRfc3339 (s : Str) : Prop :=
  ∃ (r : Rfc3339) (tee zed : Char), (tee = 'T' ∨ tee = 't') ∧ (zed = 'Z' ∨ zed = 'z') ∧
    r.Grammar ∧ s = r.renderAs tee zed

/-- The instant a timestamp denotes, in whole seconds since January 1,
year 1, 00:00:00 UTC: the civil time less the offset. -/
def Rfc3339.instant (r : Rfc3339) : Int :=
  civilSeconds r.year r.month r.day r.hour r.minute r.second - r.zone.seconds

/-- The timestamp of the example line. -/
def exampleTimestamp : Rfc3339 :=
  { year := 2015, month := 5, day := 13, hour := 23, minute := 39, second := 43,
    frac := [9, 4, 5, 9, 5, 8], zone := Zone.Z }

instance (z : Zone) : Decidable z.Valid := by
  cases z <;> unfold Zone.Valid <;> infer_instance

instance (r : Rfc3339) : Decidable r.Valid := by
  unfold Rfc3339.Valid; infer_instance

instance (r : Rfc3339) : Decidable r.Grammar := by
  unfold Rfc3339.Grammar; infer_instance

/-- A timestamp at the lower end of the years: midnight of January 1 of the
year 0000, one hour east of UTC. -/
def yearZeroTimestamp : Rfc3339 :=
  { year := 0, month := 1, day := 1, hour := 0, minute := 0, second := 0,
    frac := [], zone := Zone.plus 1 0 }

/-- A timestamp at the upper end of the years: the last second of the year
9999, one minute west of UTC. -/
def lastYearTimestamp : Rfc3339 :=
  { year := 9999, month := 12, day := 31, hour := 23, minute := 59, second := 59,
    frac := [], zone := Zone.minus 0 1 }

/-- The leap second at the end of 2016. -/
def leapSecondTimestamp : Rfc3339 :=
  { year := 2016, month := 12, day := 31, hour := 23, minute := 59, second := 60,
    frac := [], zone := Zone.Z }

/-- The timestamp of the example line without its fraction. -/
def plainTimestamp : Rfc3339 :=
  { year := 2015, month := 5, day := 13, hour := 23, minute := 39, second := 43,
    frac := [], zone := Zone.Z }

/-- A civil date and time of day: a month, a day of that month, and a time
with seconds up to 59. -/
def CivilTime (y m d hh mi ss : Int) : Prop :=
  1 ≤ m ∧ m ≤ 12 ∧ 1 ≤ d ∧ d ≤ daysIn m y ∧ 0 ≤ hh ∧ hh < 24 ∧ 0 ≤ mi ∧ mi < 60 ∧
    0 ≤ ss ∧ ss < 60

/-- The text of a civil time in UTC as `Format` pads it: the year to at
least four digits, the other parts to two, and the suffix `+0000`. -/
def utcText (y m d hh mi ss : Int) : Str :=
  appendInt y 4 ++ '-' :: (appendInt m 2 ++ '-' :: (appendInt d 2 ++ 'T' ::
    (appendInt hh 2 ++ ':' :: (appendInt mi 2 ++ ':' :: (appendInt ss 2 ++ "+0000".toList)))))

/-- The text `YYYY-MM-DDTHH:MM:SS+0000`. -/
def utcTextFixed (y m d hh mi ss : Nat) : Str :=
  four y ++ '-' :: (two m ++ '-' :: (two d ++ 'T' ::
    (two hh ++ ':' :: (two mi ++ ':' :: (two ss ++ "+0000".toList)))))

/-! ## The calendar -/

theorem norm_id (hi lo base : Int) (h0 : 0 ≤ lo) (h1 : lo < base) : norm hi lo base = (hi, lo) := by
  simp [norm, not_lt.mpr h0, h1]

theorem Date_sec (y m d h mi s ns : Int) (hm : 1 ≤ m ∧ m ≤ 12) (hh : 0 ≤ h ∧ h < 24)
    (hmi : 0 ≤ mi ∧ mi < 60) (hs : 0 ≤ s ∧ s < 60) (hns : 0 ≤ ns ∧ ns < 1000000000) :
    Date y m d h mi s ns = ⟨civilSeconds y m d h mi s, ns, 0⟩ := by
  unfold Date
  simp only [norm_id y (m - 1) 12 (by omega) (by omega), norm_id s ns _ hns.1 hns.2,
    norm_id mi s _ hs.1 hs.2, norm_id h mi _ hmi.1 hmi.2, norm_id d h _ hh.1 hh.2]
  simp only [civilSeconds, civilDays, Time.mk.injEq, and_true]
  congr 1
  by_cases hl : isLeap y = true <;> by_cases h3 : m ≥ 3 <;> simp [hl, h3] <;> omega



theorem daysBefore_vals : daysBefore 0 = 0 ∧ daysBefore 1 = 31 ∧ daysBefore 2 = 59 ∧
    daysBefore 3 = 90 ∧ daysBefore 4 = 120 ∧ daysBefore 5 = 151 ∧ daysBefore 6 = 181 ∧
    daysBefore 7 = 212 ∧ daysBefore 8 = 243 ∧ daysBefore 9 = 273 ∧ daysBefore 10 = 304 ∧
    daysBefore 11 = 334 ∧ daysBefore 12 = 365 := by decide

theorem monthDay_false (yd : Int) (h0 : 0 ≤ yd) (h1 : yd < 365) :
    1 ≤ (monthDay false yd).1 ∧ (monthDay false yd).1 ≤ 12 ∧ 1 ≤ (monthDay false yd).2 ∧
      (monthDay false yd).2 ≤
        daysBefore (monthDay false yd).1 - daysBefore ((monthDay false yd).1 - 1) ∧
      daysBefore ((monthDay false yd).1 - 1) + ((monthDay false yd).2 - 1) = yd := by
  obtain ⟨d0, d1, d2, d3, d4, d5, d6, d7, d8, d9, d10, d11, d12⟩ := daysBefore_vals
  simp only [monthDay, Bool.false_eq_true, false_and, if_false]
  obtain ⟨q, hq⟩ : ∃ q, q = yd / 31 := ⟨_, rfl⟩
  rw [← hq]
  have hq1 : 0 ≤ q := by omega
  have hq2 : q ≤ 11 := by omega
  interval_cases q <;> norm_num only [d0, d1, d2, d3, d4, d5, d6, d7, d8, d9, d10, d11, d12]
    <;> split <;> norm_num only [d0, d1, d2, d3, d4, d5, d6, d7, d8, d9, d10, d11, d12, true_and]
    <;> omega


theorem monthDay_true (yd : Int) (h0 : 0 ≤ yd) (h1 : yd < 366) :
    1 ≤ (monthDay true yd).1 ∧ (monthDay true yd).1 ≤ 12 ∧ 1 ≤ (monthDay true yd).2 ∧
      (monthDay true yd).2 ≤ (if (monthDay true yd).1 = 2 then 29
        else daysBefore (monthDay true yd).1 - daysBefore ((monthDay true yd).1 - 1)) ∧
      daysBefore ((monthDay true yd).1 - 1) + (if (monthDay true yd).1 ≥ 3 then 1 else 0)
        + ((monthDay true yd).2 - 1) = yd := by
  obtain ⟨d0, d1, d2, d3, d4, d5, d6, d7, d8, d9, d10, d11, d12⟩ := daysBefore_vals
  simp only [monthDay, true_and]
  by_cases h59 : yd = 31 + 29 - 1
  · rw [if_pos h59]
    norm_num [d1, h59]
  · rw [if_neg h59]
    by_cases hgt : yd > 31 + 29 - 1
    · simp only [if_pos hgt]
      obtain ⟨q, hq⟩ : ∃ q, q = (yd - 1) / 31 := ⟨_, rfl⟩
      rw [← hq]
      have hq1 : 1 ≤ q := by omega
      have hq2 : q ≤ 11 := by omega
      interval_cases q <;> norm_num only [d0, d1, d2, d3, d4, d5, d6, d7, d8, d9, d10, d11, d12]
        <;> split
        <;> norm_num [d0, d1, d2, d3, d4, d5, d6, d7, d8, d9, d10, d11, d12]
        <;> omega
    · simp only [if_neg hgt]
      obtain ⟨q, hq⟩ : ∃ q, q = yd / 31 := ⟨_, rfl⟩
      rw [← hq]
      have hq1 : 0 ≤ q := by omega
      have hq2 : q ≤ 1 := by omega
      interval_cases q <;> norm_num only [d0, d1, d2, d3, d4, d5, d6, d7, d8, d9, d10, d11, d12]
        <;> split
        <;> norm_num [d0, d1, d2, d3, d4, d5, d6, d7, d8, d9, d10, d11, d12]
        <;> omega


theorem isLeap_iff (y : Int) :
    isLeap y = true ↔ (y % 4 = 0 ∧ (y % 100 ≠ 0 ∨ y % 400 = 0)) := by
  simp [isLeap]

theorem year_arith (d n400 d1 c n100 d2 n4 d3 g n1 yd y : Int)
    (h1 : n400 = d / 146097) (h2 : d1 = d - 146097 * n400) (h3 : c = d1 / 36524)
    (h4 : n100 = c - c / 4) (h5 : d2 = d1 - 36524 * n100) (h6 : n4 = d2 / 1461)
    (h7 : d3 = d2 - 1461 * n4) (h8 : g = d3 / 365) (h9 : n1 = g - g / 4)
    (h10 : yd = d3 - 365 * n1) (h11 : y = 400 * n400 + 100 * n100 + 4 * n4 + n1 + 1) :
    0 ≤ yd ∧ (yd < 365 ∨ (yd = 365 ∧ y % 4 = 0 ∧ (y % 100 ≠ 0 ∨ y % 400 = 0))) ∧
      365 * (y - 1) + (y - 1) / 4 - (y - 1) / 100 + (y - 1) / 400 + yd = d := by
  have hc0 : 0 ≤ c := by omega
  have hc4 : c ≤ 4 := by omega
  have hn4a : 0 ≤ n4 := by omega
  have hn4b : n4 ≤ 24 := by omega
  have hg0 : 0 ≤ g := by omega
  have hg4 : g ≤ 4 := by omega
  interval_cases c <;> interval_cases g <;> omega

theorem absDate_eq (d : Int) :
    ∃ y yd, absDate d = (y, monthDay (isLeap y) yd) ∧ 0 ≤ yd ∧
      (yd < 365 ∨ (yd = 365 ∧ y % 4 = 0 ∧ (y % 100 ≠ 0 ∨ y % 400 = 0))) ∧
      365 * (y - 1) + (y - 1) / 4 - (y - 1) / 100 + (y - 1) / 400 + yd = d :=
  ⟨_, _, rfl, year_arith d _ _ _ _ _ _ _ _ _ _ _ rfl rfl rfl rfl rfl rfl rfl rfl rfl rfl rfl⟩

theorem absDate_spec (d : Int) :
    1 ≤ (absDate d).2.1 ∧ (absDate d).2.1 ≤ 12 ∧ 1 ≤ (absDate d).2.2 ∧
      (absDate d).2.2 ≤ daysIn (absDate d).2.1 (absDate d).1 ∧
      civilDays (absDate d).1 (absDate d).2.1 (absDate d).2.2 = d := by
  obtain ⟨y, yd, he, hyd0, hyd, hsum⟩ := absDate_eq d
  rw [he]
  simp only [civilDays, daysIn]
  by_cases hl : isLeap y = true
  · have hyd1 : yd < 366 := by omega
    obtain ⟨a1, a2, a3, a4, a5⟩ := monthDay_true yd hyd0 hyd1
    simp only [hl, and_true, true_and]
    refine ⟨a1, a2, a3, a4, ?_⟩
    omega
  · have hl2 := (isLeap_iff y).not.mp hl
    have hyd1 : yd < 365 := by omega
    simp only [Bool.not_eq_true] at hl
    obtain ⟨a1, a2, a3, a4, a5⟩ := monthDay_false yd hyd0 hyd1
    simp only [hl, Bool.false_eq_true, and_false, false_and, if_false]
    refine ⟨a1, a2, a3, a4, ?_⟩
    omega

/-! ## Splitting -/

theorem splitFrom_one_cons (a c : Char) (cs : Str) :
    splitFrom [a] 0 (c :: cs) =
      if a = c then [] :: splitFrom [a] 0 cs else headCons c (splitFrom [a] 0 cs) := by
  by_cases h : a = c <;> simp [splitFrom, List.isPrefixOf, h]

/-- Splitting on one character: a piece free of the separator, followed by
the separator, is the first piece. -/
theorem Split_one_append (a : Char) (p rest : Str) (hp : a ∉ p) :
    Split (p ++ a :: rest) [a] = p :: Split rest [a] := by
  induction p with
  | nil => simp [Split, splitFrom_one_cons]
  | cons c cs ih =>
    have hc : a ≠ c := fun h => hp (List.mem_cons.mpr (Or.inl h))
    have hcs : a ∉ cs := fun h => hp (List.mem_cons.mpr (Or.inr h))
    have ih2 := ih hcs
    simp only [Split] at ih2 ⊢
    rw [List.cons_append, splitFrom_one_cons, if_neg hc, ih2]
    rfl

/-- Splitting on one character that does not occur gives the string itself. -/
theorem Split_one_none (a : Char) (p : Str) (hp : a ∉ p) : Split p [a] = [p] := by
  induction p with
  | nil => rfl
  | cons c cs ih =>
    have hc : a ≠ c := fun h => hp (List.mem_cons.mpr (Or.inl h))
    have hcs : a ∉ cs := fun h => hp (List.mem_cons.mpr (Or.inr h))
    have ih2 := ih hcs
    simp only [Split] at ih2 ⊢
    rw [splitFrom_one_cons, if_neg hc, ih2]
    rfl

theorem foldr_headCons (p x : Str) (xs : List Str) :
    p.foldr headCons (x :: xs) = (p ++ x) :: xs := by
  induction p with
  | nil => rfl
  | cons c cs ih => simp [List.foldr, ih, headCons]

theorem splitFrom_qsq_ne (c : Char) (cs : Str) (h : c ≠ '"') :
    splitFrom quoteSpaceQuote 0 (c :: cs) = headCons c (splitFrom quoteSpaceQuote 0 cs) := by
  have h2 : ¬ ('"' = c) := fun e => h e.symm
  simp [splitFrom, quoteSpaceQuote, List.isPrefixOf, h2]

theorem splitFrom_qsq_append (p s : Str) (hp : '"' ∉ p) :
    splitFrom quoteSpaceQuote 0 (p ++ s) = p.foldr headCons (splitFrom quoteSpaceQuote 0 s) := by
  induction p with
  | nil => rfl
  | cons c cs ih =>
    have hc : c ≠ '"' := fun h => hp (List.mem_cons.mpr (Or.inl h.symm))
    have hcs : '"' ∉ cs := fun h => hp (List.mem_cons.mpr (Or.inr h))
    rw [List.cons_append, splitFrom_qsq_ne _ _ hc, ih hcs]
    rfl

theorem splitFrom_qsq_none (p : Str) (hp : '"' ∉ p) :
    splitFrom quoteSpaceQuote 0 p = [p] := by
  have := splitFrom_qsq_append p [] hp
  simp only [List.append_nil] at this
  rw [this]
  simpa [splitFrom] using foldr_headCons p [] []

theorem splitFrom_qsq_match (s : Str) :
    splitFrom quoteSpaceQuote 0 ('"' :: ' ' :: '"' :: s)
      = [] :: splitFrom quoteSpaceQuote 0 s := by
  simp [splitFrom, quoteSpaceQuote, List.isPrefixOf]

/-- A quote that two quote-free tokens follow, each ended by a space, the
first without a space, starts no delimiter. -/
theorem splitFrom_qsq_quote (tok tok2 s : Str) (h1 : ' ' ∉ tok) (h2 : '"' ∉ tok2) :
    splitFrom quoteSpaceQuote 0 ('"' :: (tok ++ ' ' :: (tok2 ++ ' ' :: s)))
      = headCons '"' (splitFrom quoteSpaceQuote 0 (tok ++ ' ' :: (tok2 ++ ' ' :: s))) := by
  cases tok with
  | nil =>
    cases tok2 with
    | nil => simp [splitFrom, quoteSpaceQuote, List.isPrefixOf]
    | cons d ds =>
      have hd : ¬ ('"' = d) := fun h => h2 (List.mem_cons.mpr (Or.inl h))
      simp [splitFrom, quoteSpaceQuote, List.isPrefixOf, hd]
  | cons c cs =>
    have hc : ¬ (' ' = c) := fun h => h1 (List.mem_cons.mpr (Or.inl h))
    simp [splitFrom, quoteSpaceQuote, List.isPrefixOf, hc]

theorem dropWhile_quote (l : Str) (hl : '"' ∉ l) :
    l.dropWhile (fun c => quote.contains c) = l := by
  cases l with
  | nil => rfl
  | cons c cs =>
    have hc : ¬ (c = '"') := fun e => hl (List.mem_cons.mpr (Or.inl e.symm))
    rw [List.dropWhile_cons_of_neg]
    simp [quote, hc]

theorem Trim_quote_left (m : Str) (h : '"' ∉ m) : Trim ('"' :: m) quote = m := by
  have h1 : ('"' :: m).dropWhile (fun c => quote.contains c) = m := by
    rw [List.dropWhile_cons_of_pos (by simp [quote]), dropWhile_quote m h]
  unfold Trim
  rw [h1, dropWhile_quote m.reverse (by simpa using h), List.reverse_reverse]

theorem Trim_quote_right (m : Str) (h : '"' ∉ m) : Trim (m ++ ['"']) quote = m := by
  cases m with
  | nil => rfl
  | cons c cs =>
    have hc : ¬ (c = '"') := fun e => h (List.mem_cons.mpr (Or.inl e.symm))
    have h1 : (c :: cs ++ ['"']).dropWhile (fun c => quote.contains c) = c :: cs ++ ['"'] := by
      rw [List.cons_append, List.dropWhile_cons_of_neg]
      simp [quote, hc]
    unfold Trim
    rw [h1, List.reverse_append]
    simp only [List.reverse_cons, List.reverse_nil, List.nil_append, List.singleton_append]
    rw [List.dropWhile_cons_of_pos (by simp [quote])]
    have h3 := dropWhile_quote (c :: cs).reverse (by rw [List.mem_reverse]; exact h)
    simp only [List.reverse_cons] at h3
    rw [h3]
    simp

theorem Split_one_cons_append (a c : Char) (p rest : Str) (hc : a ≠ c) (hp : a ∉ p) :
    Split (c :: (p ++ a :: rest)) [a] = (c :: p) :: Split rest [a] :=
  Split_one_append a (c :: p) rest (by
    intro h
    rcases List.mem_cons.mp h with h | h
    · exact hc h
    · exact hp h)

theorem Split_one_append_cons (a c : Char) (p rest : Str) (hc : a ≠ c) (hp : a ∉ p) :
    Split (p ++ c :: a :: rest) [a] = (p ++ [c]) :: Split rest [a] := by
  have h := Split_one_append a (p ++ [c]) rest (by
    intro h
    rcases List.mem_append.mp h with h | h
    · exact hp h
    · exact hc (List.mem_singleton.mp h))
  simpa [List.append_assoc] using h

/-- The two pieces of a line around the delimiter quote-space-quote. -/
theorem Split_qsq_shape (A tok tok2 tok3 ua c p : Str) (hA : '"' ∉ A) (h1 : ' ' ∉ tok)
    (h1q : '"' ∉ tok) (h2 : '"' ∉ tok2) (h3 : '"' ∉ tok3) (hua : '"' ∉ ua)
    (hc : '"' ∉ c) (hp : '"' ∉ p) :
    Split (A ++ '"' :: (tok ++ ' ' :: (tok2 ++ ' ' :: (tok3 ++ '"' :: ' ' :: '"' ::
        (ua ++ '"' :: ' ' :: (c ++ ' ' :: p)))))) quoteSpaceQuote
      = [A ++ '"' :: (tok ++ ' ' :: (tok2 ++ ' ' :: tok3)), ua ++ '"' :: ' ' :: (c ++ ' ' :: p)] := by
  have hR : splitFrom quoteSpaceQuote 0 (ua ++ '"' :: ' ' :: (c ++ ' ' :: p))
      = [ua ++ '"' :: ' ' :: (c ++ ' ' :: p)] := by
    rw [splitFrom_qsq_append _ _ hua]
    have hq := splitFrom_qsq_quote [] c p (by simp) hc
    simp only [List.nil_append] at hq
    rw [hq, splitFrom_qsq_ne _ _ (by decide), splitFrom_qsq_none (c ++ ' ' :: p) (by
      intro h
      rcases List.mem_append.mp h with h | h
      · exact hc h
      · rcases List.mem_cons.mp h with h | h
        · exact absurd h (by decide)
        · exact hp h)]
    simp only [headCons]
    rw [foldr_headCons]
  have hM : '"' ∉ tok ++ ' ' :: (tok2 ++ ' ' :: tok3) := by
    intro h
    rcases List.mem_append.mp h with h | h
    · exact h1q h
    · rcases List.mem_cons.mp h with h | h
      · exact absurd h (by decide)
      · rcases List.mem_append.mp h with h | h
        · exact h2 h
        · rcases List.mem_cons.mp h with h | h
          · exact absurd h (by decide)
          · exact h3 h
  have hsplit : tok ++ ' ' :: (tok2 ++ ' ' :: (tok3 ++ '"' :: ' ' :: '"' ::
        (ua ++ '"' :: ' ' :: (c ++ ' ' :: p))))
      = (tok ++ ' ' :: (tok2 ++ ' ' :: tok3)) ++ '"' :: ' ' :: '"' ::
        (ua ++ '"' :: ' ' :: (c ++ ' ' :: p)) := by
    simp [List.append_assoc]
  unfold Split
  rw [splitFrom_qsq_append _ _ hA, splitFrom_qsq_quote _ _ _ h1 h2, hsplit,
    splitFrom_qsq_append _ _ hM, splitFrom_qsq_match, hR, foldr_headCons]
  simp only [headCons, List.append_nil]
  rw [foldr_headCons]

theorem WireLine.render_fields (w : WireLine) (h : w.WellFormed) :
    Split w.render space = w.timestamp :: w.elb :: w.client :: w.backend ::
      w.req_proc :: w.backend_proc :: w.resp_proc :: w.elb_status :: w.backend_status ::
      w.recv_bytes :: w.sent_bytes :: ('"' :: w.method) :: w.url :: (w.protocol ++ ['"']) ::
      Split ('"' :: (w.user_agent ++ '"' :: ' ' :: (w.cipher ++ ' ' :: w.protocol_version)))
        space := by
  obtain ⟨hp, _⟩ := h
  simp only [WireLine.plainTokens, List.mem_cons, List.mem_singleton, forall_eq_or_imp,
    forall_eq, List.not_mem_nil, false_implies, implies_true, and_true] at hp
  obtain ⟨h1, h2, h3, h4, h5, h6, h7, h8, h9, h10, h11, h12, h13, h14, -, -⟩ := hp
  simp only [WireLine.render, space]
  rw [Split_one_append _ _ _ h1.1, Split_one_append _ _ _ h2.1, Split_one_append _ _ _ h3.1,
    Split_one_append _ _ _ h4.1, Split_one_append _ _ _ h5.1, Split_one_append _ _ _ h6.1,
    Split_one_append _ _ _ h7.1, Split_one_append _ _ _ h8.1, Split_one_append _ _ _ h9.1,
    Split_one_append _ _ _ h10.1, Split_one_append _ _ _ h11.1,
    Split_one_cons_append _ _ _ _ (by decide) h12.1, Split_one_append _ _ _ h13.1,
    Split_one_append_cons _ _ _ _ (by decide) h14.1]

theorem WireLine.render_segments (w : WireLine) (h : w.WellFormed) :
    (Split w.render quoteSpaceQuote)[1]?
      = some (w.user_agent ++ '"' :: ' ' :: (w.cipher ++ ' ' :: w.protocol_version)) := by
  obtain ⟨hp, hua⟩ := h
  simp only [WireLine.plainTokens, List.mem_cons, List.mem_singleton, forall_eq_or_imp,
    forall_eq, List.not_mem_nil, false_implies, implies_true, and_true] at hp
  obtain ⟨h1, h2, h3, h4, h5, h6, h7, h8, h9, h10, h11, h12, h13, h14, h15, h16⟩ := hp
  have hA : '"' ∉ w.timestamp ++ ' ' :: (w.elb ++ ' ' :: (w.client ++ ' ' :: (w.backend ++ ' ' ::
      (w.req_proc ++ ' ' :: (w.backend_proc ++ ' ' :: (w.resp_proc ++ ' ' ::
      (w.elb_status ++ ' ' :: (w.backend_status ++ ' ' :: (w.recv_bytes ++ ' ' ::
      (w.sent_bytes ++ [' ' ])))))))))) := by
    simp only [List.mem_append, List.mem_cons, List.mem_singleton, List.not_mem_nil,
      not_or, or_false]
    refine ⟨h1.2, by decide, h2.2, by decide, h3.2, by decide, h4.2, by decide, h5.2,
      by decide, h6.2, by decide, h7.2, by decide, h8.2, by decide, h9.2, by decide,
      h10.2, by decide, h11.2, by decide⟩
  have hs := Split_qsq_shape _ w.method w.url w.protocol w.user_agent w.cipher
    w.protocol_version hA h12.1 h12.2 h13.2 h14.2 hua h15.2 h16.2
  have hr : w.render = (w.timestamp ++ ' ' :: (w.elb ++ ' ' :: (w.client ++ ' ' ::
      (w.backend ++ ' ' :: (w.req_proc ++ ' ' :: (w.backend_proc ++ ' ' :: (w.resp_proc ++ ' ' ::
      (w.elb_status ++ ' ' :: (w.backend_status ++ ' ' :: (w.recv_bytes ++ ' ' ::
      (w.sent_bytes ++ [' ' ])))))))))))
      ++ '"' :: (w.method ++ ' ' :: (w.url ++ ' ' :: (w.protocol ++ '"' :: ' ' :: '"' ::
        (w.user_agent ++ '"' :: ' ' :: (w.cipher ++ ' ' :: w.protocol_version))))) := by
    simp [WireLine.render, List.append_assoc]
  rw [hr, hs]
  rfl

/-- The line parser on a line in the wire format. -/
theorem parseLine_render (w : WireLine) (h : w.WellFormed) :
    parseLine w.render
      = some (w.document ((timeParse w.timestamp).getD Time.zero).UTC.FormatTimestamp) := by
  have hf := w.render_fields h
  have hs := w.render_segments h
  obtain ⟨hp, hua⟩ := h
  simp only [WireLine.plainTokens, List.mem_cons, List.mem_singleton, forall_eq_or_imp,
    forall_eq, List.not_mem_nil, false_implies, implies_true, and_true] at hp
  obtain ⟨h1, h2, h3, h4, h5, h6, h7, h8, h9, h10, h11, h12, h13, h14, h15, h16⟩ := hp
  have htemp : Split (w.user_agent ++ '"' :: ' ' :: (w.cipher ++ ' ' :: w.protocol_version)) quote
      = [w.user_agent, ' ' :: (w.cipher ++ ' ' :: w.protocol_version)] := by
    unfold quote
    rw [Split_one_append _ _ _ hua, Split_one_none]
    intro hm
    rcases List.mem_cons.mp hm with hm | hm
    · exact absurd hm (by decide)
    · rcases List.mem_append.mp hm with hm | hm
      · exact h15.2 hm
      · rcases List.mem_cons.mp hm with hm | hm
        · exact absurd hm (by decide)
        · exact h16.2 hm
  have hcp : Split (' ' :: (w.cipher ++ ' ' :: w.protocol_version)) space
      = [[], w.cipher, w.protocol_version] := by
    unfold space
    have e := Split_one_append ' ' [] (w.cipher ++ ' ' :: w.protocol_version) (by simp)
    simp only [List.nil_append] at e
    rw [e, Split_one_append _ _ _ h15.1, Split_one_none _ _ h16.1]
  simp only [parseLine, lineTime, hf, hs, htemp, hcp, List.getElem?_cons_zero,
    List.getElem?_cons_succ, Trim_quote_left _ h12.2, Trim_quote_right _ h14.2,
    WireLine.document]

/-! ## The loop -/

theorem step_of_panicked (L : Int) (b : Backend) (s : Session) (inp : Str × Time)
    (h : s.panicked = true) : step L b s inp = s := by
  simp [step, h]

theorem stream_of_panicked (L : Int) (b : Backend) (lines : List (Str × Time)) :
    ∀ s : Session, s.panicked = true → stream L b s lines = s := by
  induction lines with
  | nil => intro s _; rfl
  | cons inp rest ih =>
    intro s h
    simp only [stream, List.foldl_cons] at ih ⊢
    rw [step_of_panicked L b s inp h]
    exact ih s h

theorem stream_append (L : Int) (b : Backend) (s : Session) (l1 l2 : List (Str × Time)) :
    stream L b s (l1 ++ l2) = stream L b (stream L b s l1) l2 := by
  simp [stream, List.foldl_append]

theorem stream_cons (L : Int) (b : Backend) (s : Session) (inp : Str × Time)
    (rest : List (Str × Time)) :
    stream L b s (inp :: rest) = stream L b (step L b s inp) rest := rfl

/-- The line parser panics on a malformed line. -/
theorem parseLine_of_malformed (oline : Str) (h : Malformed oline) : parseLine oline = none := by
  by_contra hne
  obtain ⟨d, hd⟩ := Option.ne_none_iff_exists'.mp hne
  unfold parseLine at hd
  simp only [] at hd
  split at hd
  · exact absurd hd (by simp)
  · rename_i seg hseg
    split at hd
    · rename_i l1 l2 l3 l4 l5 l6 l7 l8 l9 l10 l11 l12 l13 e1 e2 e3 e4 e5 e6 e7 e8 e9 e10 e11 e12 e13
      split at hd
      · rename_i t0 t1 ht0 ht1
        split at hd
        · rename_i c1 c2 hc1 hc2
          have hlen13 : 13 < (Split oline space).length := by
            by_contra hlt
            rw [List.getElem?_eq_none (by omega)] at e13
            exact absurd e13 (by simp)
          have hlen1 : 1 < (Split oline quoteSpaceQuote).length := by
            by_contra hlt
            rw [List.getElem?_eq_none (by omega)] at hseg
            exact absurd hseg (by simp)
          have hlent : 1 < (Split seg quote).length := by
            by_contra hlt
            rw [List.getElem?_eq_none (by omega)] at ht1
            exact absurd ht1 (by simp)
          have hlenc : 2 < (Split t1 space).length := by
            by_contra hlt
            rw [List.getElem?_eq_none (by omega)] at hc2
            exact absurd hc2 (by simp)
          rcases h with h | h | h
          · omega
          · omega
          · rcases h seg hseg with h | h
            · omega
            · have := h t1 ht1
              omega
        · exact absurd hd (by simp)
      · exact absurd hd (by simp)
    · exact absurd hd (by simp)

theorem flush_some (backend : Backend) (s : Session) (resp : BulkResponse)
    (h : backend s.calls.length s.requests = some resp) :
    (flush backend s).panicked = s.panicked ∧ (flush backend s).requests = [] ∧
      (flush backend s).calls = s.calls ++ [s.requests] := by
  simp [flush, h]

theorem flush_none (backend : Backend) (s : Session)
    (h : backend s.calls.length s.requests = none) :
    (flush backend s).panicked = true ∧ (flush backend s).requests = s.requests ∧
      (flush backend s).calls = s.calls ++ [s.requests] ∧
      (flush backend s).log = s.log ++ [LogEntry.bulkError] := by
  simp [flush, h]

theorem BatchInv_step (L : Nat) (backend : Backend)
    (hb : ∀ k reqs, (backend k reqs).isSome) (s : Session) (done : List BulkIndexRequest)
    (inp : Str × Time) (r0 : BulkIndexRequest) (hr : requestOf inp = some r0)
    (h : BatchInv L s done) : BatchInv L (step L backend s inp) (done ++ [r0]) := by
  obtain ⟨hp, q, r, hlen, hr_lt, hjoin, hmap, hreq⟩ := h
  obtain ⟨doc, hdoc, hr0⟩ : ∃ doc, parseLine inp.1 = some doc ∧ indexRequest inp.2 doc = r0 := by
    simpa [requestOf] using hr
  have hadd : (addLine s inp).panicked = false ∧ (addLine s inp).calls = s.calls ∧
      (addLine s inp).requests = s.requests ++ [r0] := by
    unfold addLine
    simp only [hdoc, hr0]
    split <;> simp [hp]
  obtain ⟨ha1, ha2, ha3⟩ := hadd
  have hqL : q * L ≤ done.length := by omega
  have hreqlen : s.requests.length = r := by
    rw [hreq, List.length_drop]; omega
  unfold step
  rw [if_neg (by simp [hp]), if_neg (by simp [ha1])]
  by_cases hfull : r + 1 = L
  · have hcmp : (((addLine s inp).requests.length : Nat) : Int) = (L : Int) := by
      rw [ha3, List.length_append, hreqlen]; simp [hfull]
    simp only [hcmp, if_true]
    obtain ⟨resp, hresp⟩ := Option.isSome_iff_exists.mp
      (hb (addLine s inp).calls.length (addLine s inp).requests)
    obtain ⟨f1, f2, f3⟩ := flush_some backend (addLine s inp) resp hresp
    rw [ha1] at f1
    rw [ha2, ha3] at f3
    simp only [f1, Bool.false_eq_true, if_false]
    unfold BatchInv
    simp only [f2, f3]
    refine ⟨trivial, q + 1, 0, ?_, by omega, ?_, ?_, ?_⟩
    · rw [List.length_append, hlen, Nat.add_mul]; simp; omega
    · have hl2 : (done ++ [r0]).length = (q + 1) * L := by
        rw [List.length_append, hlen, Nat.add_mul]; simp; omega
      rw [← hl2, List.take_length, List.flatten_append, hjoin, hreq]
      simp only [List.flatten_cons, List.flatten_nil, List.append_nil]
      rw [← List.append_assoc, List.take_append_drop]
    · rw [List.map_append, hmap, List.replicate_succ']
      simp [hreqlen, hfull]
    · have hl2 : (done ++ [r0]).length = (q + 1) * L := by
        rw [List.length_append, hlen, Nat.add_mul]; simp; omega
      rw [← hl2, List.drop_length]
  · have hcmp : ¬ ((((addLine s inp).requests.length : Nat) : Int) = (L : Int)) := by
      rw [ha3, List.length_append, hreqlen]
      simp only [List.length_singleton]
      intro hc
      exact hfull (by exact_mod_cast hc)
    simp only [hcmp, if_false, ha1, Bool.false_eq_true]
    unfold BatchInv
    simp only []
    refine ⟨trivial, q, r + 1, ?_, by omega, ?_, ?_, ?_⟩
    · rw [List.length_append, hlen]; simp; omega
    · rw [ha2, hjoin, List.take_append_of_le_length hqL]
    · rw [ha2, hmap]
    · rw [ha3, hreq, List.drop_append_of_le_length hqL]

theorem BatchInv_stream (L : Nat) (backend : Backend)
    (hb : ∀ k reqs, (backend k reqs).isSome) (lines : List (Str × Time)) :
    ∀ (s : Session) (done : List BulkIndexRequest),
      (∀ inp ∈ lines, (parseLine inp.1).isSome) → BatchInv L s done →
      BatchInv L (stream L backend s lines) (done ++ lines.filterMap requestOf) := by
  induction lines with
  | nil => intro s done _ h; simpa [stream] using h
  | cons inp rest ih =>
    intro s done hl h
    obtain ⟨doc, hdoc⟩ := Option.isSome_iff_exists.mp (hl inp (List.mem_cons_self _ _))
    have hr : requestOf inp = some (indexRequest inp.2 doc) := by simp [requestOf, hdoc]
    have h1 := BatchInv_step L backend hb s done inp _ hr h
    have h2 := ih (step L backend s inp) (done ++ [indexRequest inp.2 doc])
      (fun i hi => hl i (List.mem_cons_of_mem _ hi)) h1
    rw [stream_cons]
    simpa [List.filterMap_cons, hr, List.append_assoc] using h2

theorem BatchInv_init (L : Nat) (hL : 1 ≤ L) (s0 : Session) (h0 : s0.panicked = false)
    (hc : s0.calls = []) :
    BatchInv L { s0 with requests := [], num := 1 } [] :=
  ⟨h0, 0, 0, by simp, by omega, by simp [hc], by simp [hc], by simp⟩

theorem length_filterMap_requestOf (lines : List (Str × Time))
    (hl : ∀ inp ∈ lines, (parseLine inp.1).isSome) :
    (lines.filterMap requestOf).length = lines.length := by
  induction lines with
  | nil => rfl
  | cons inp rest ih =>
    obtain ⟨doc, hdoc⟩ := Option.isSome_iff_exists.mp (hl inp (List.mem_cons_self _ _))
    have hr : requestOf inp = some (indexRequest inp.2 doc) := by simp [requestOf, hdoc]
    simp [List.filterMap_cons, hr, ih (fun i hi => hl i (List.mem_cons_of_mem _ hi))]

theorem div_mod_of_eq (n L q r : Nat) (h : n = q * L + r) (hr : r < L) :
    n / L = q ∧ n % L = r := by
  have hL : 0 < L := by omega
  subst h
  constructor
  · rw [Nat.add_comm, Nat.add_mul_div_right _ _ hL, Nat.div_eq_of_lt hr, Nat.zero_add]
  · rw [Nat.add_comm, Nat.add_mul_mod_self_right, Nat.mod_eq_of_lt hr]

theorem session_of_stream_ok (L : Int) (backend : Backend)
    (hb : ∀ k reqs, (backend k reqs).isSome) (s0 : Session) (lines : List (Str × Time))
    (h0 : s0.panicked = false)
    (hs : (stream L backend { s0 with requests := [], num := 1 } lines).panicked = false) :
    (session L backend s0 lines).panicked = false ∧
    (session L backend s0 lines).requests = [] ∧
    (session L backend s0 lines).calls
      = (stream L backend { s0 with requests := [], num := 1 } lines).calls
        ++ (if (stream L backend { s0 with requests := [], num := 1 } lines).requests.length > 0
            then [(stream L backend { s0 with requests := [], num := 1 } lines).requests]
            else []) ∧
    (session L backend s0 lines).num
      = (stream L backend { s0 with requests := [], num := 1 } lines).num := by
  unfold session
  rw [if_neg (by simp [h0])]
  simp only []
  rw [if_neg (by simp [hs])]
  by_cases hlen : (stream L backend { s0 with requests := [], num := 1 } lines).requests.length > 0
  · obtain ⟨resp, hresp⟩ := Option.isSome_iff_exists.mp
      (hb (stream L backend { s0 with requests := [], num := 1 } lines).calls.length
        (stream L backend { s0 with requests := [], num := 1 } lines).requests)
    obtain ⟨f1, f2, f3⟩ := flush_some backend _ resp hresp
    rw [hs] at f1
    simp only [hlen, if_true, f1, Bool.false_eq_true, if_false, f2, f3, true_and]
    simp [flush, hresp]
  · simp only [hlen, if_false, hs, Bool.false_eq_true, true_and, List.append_nil, and_true]
    exact List.length_eq_zero.mp (by omega)

/-! ## Further lemmas on the loop and on the time format -/

theorem session_of_stream_panicked (L : Int) (backend : Backend) (s0 : Session)
    (lines : List (Str × Time))
    (hs : (stream L backend { s0 with requests := [], num := 1 } lines).panicked = true) :
    (session L backend s0 lines).panicked = true ∧
    (session L backend s0 lines).calls
      = (stream L backend { s0 with requests := [], num := 1 } lines).calls := by
  unfold session
  by_cases h0 : s0.panicked = true
  · have h1 := stream_of_panicked L backend lines { s0 with requests := [], num := 1 } h0
    rw [if_pos h0, h1]
    exact ⟨h0, rfl⟩
  · rw [if_neg h0]
    simp only []
    rw [if_pos hs]
    exact ⟨hs, rfl⟩

theorem step_of_malformed (L : Int) (backend : Backend) (s : Session) (bad : Str × Time)
    (h : parseLine bad.1 = none) :
    (step L backend s bad).panicked = true ∧ (step L backend s bad).calls = s.calls := by
  unfold step
  by_cases hp : s.panicked = true
  · simp [hp]
  · have ha : (addLine s bad).panicked = true ∧ (addLine s bad).calls = s.calls := by
      unfold addLine
      simp only [h]
      split <;> simp
    simp [hp, ha.1, ha.2]

theorem addLine_requests_length (s : Session) (inp : Str × Time) :
    (addLine s inp).requests.length ≤ s.requests.length + 1 ∧
    ((addLine s inp).panicked = false → s.panicked = false) := by
  unfold addLine
  cases parseLine inp.1 with
  | none => split <;> simp
  | some doc => split <;> simp

theorem Bounded_step (L : Int) (backend : Backend) (s : Session) (inp : Str × Time)
    (h : Bounded L s) : Bounded L (step L backend s inp) := by
  unfold step
  by_cases hp : s.panicked = true
  · rw [if_pos hp]; exact h
  · rw [if_neg hp]
    have hlt : (s.requests.length : Int) < L := by
      rcases h with h | h
      · exact h
      · exact absurd h.1 hp
    have hadd := (addLine_requests_length s inp).1
    simp only []
    by_cases hpa : (addLine s inp).panicked = true
    · rw [if_pos hpa]
      exact Or.inr ⟨hpa, by omega⟩
    · rw [if_neg hpa]
      by_cases hfull : ((addLine s inp).requests.length : Int) = L
      · rw [if_pos hfull]
        cases hb : backend (addLine s inp).calls.length (addLine s inp).requests with
        | none =>
          obtain ⟨f1, f2, -, -⟩ := flush_none backend _ hb
          rw [if_pos f1]
          exact Or.inr ⟨f1, by rw [f2]; omega⟩
        | some resp =>
          obtain ⟨f1, f2, -⟩ := flush_some backend _ resp hb
          have f1b : ¬ (flush backend (addLine s inp)).panicked = true := by rw [f1]; exact hpa
          rw [if_neg f1b]
          exact Or.inl (by simp only [f2, List.length_nil]; omega)
      · rw [if_neg hfull, if_neg hpa]
        exact Or.inl (by simp only []; omega)

theorem Bounded_stream (L : Int) (backend : Backend) (lines : List (Str × Time)) :
    ∀ s : Session, Bounded L s → Bounded L (stream L backend s lines) := by
  induction lines with
  | nil => intro s h; exact h
  | cons inp rest ih =>
    intro s h
    rw [stream_cons]
    exact ih _ (Bounded_step L backend s inp h)

/-- The day a clock reading is formatted to is its UTC calendar date. -/
theorem FormatDay_civil (t : Time) :
    ∃ y m d, 1 ≤ m ∧ m ≤ 12 ∧ 1 ≤ d ∧ d ≤ daysIn m y ∧ civilDays y m d = t.sec / 86400 ∧
      t.UTC.FormatDay = appendInt y 4 ++ '.' :: (appendInt m 2 ++ '.' :: appendInt d 2) := by
  obtain ⟨a1, a2, a3, a4, a5⟩ := absDate_spec (t.sec / 86400)
  refine ⟨_, _, _, a1, a2, a3, a4, a5, ?_⟩
  simp [Time.FormatDay, Time.UTC]

theorem lineTime_render (w : WireLine) (h : w.WellFormed) :
    lineTime w.render = (timeParse w.timestamp).getD Time.zero ∧
    lineTimeError w.render = (timeParse w.timestamp).isNone := by
  have hf := w.render_fields h
  simp [lineTime, lineTimeError, hf]

theorem WellFormed_timestamp (w : WireLine) (h : w.WellFormed) (ts : Str) (h1 : ' ' ∉ ts)
    (h2 : '"' ∉ ts) : ({ w with timestamp := ts } : WireLine).WellFormed := by
  obtain ⟨hp, hua⟩ := h
  refine ⟨?_, hua⟩
  intro tok htok
  simp only [WireLine.plainTokens, List.mem_cons] at htok
  rcases htok with htok | htok
  · rw [htok]; exact ⟨h1, h2⟩
  · exact hp tok (by
      simp only [WireLine.plainTokens, List.mem_cons]
      exact Or.inr htok)

theorem absClock_spec (abs : Int) :
    0 ≤ (absClock abs).1 ∧ (absClock abs).1 < 24 ∧ 0 ≤ (absClock abs).2.1 ∧
      (absClock abs).2.1 < 60 ∧ 0 ≤ (absClock abs).2.2 ∧ (absClock abs).2.2 < 60 ∧
      (absClock abs).1 * 3600 + (absClock abs).2.1 * 60 + (absClock abs).2.2 = abs % 86400 := by
  simp only [absClock]
  omega

/-- The timestamp a time in UTC is formatted to: the civil date and time of
its second. -/
theorem FormatTimestamp_civil (t : Time) :
    ∃ y m d hh mi ss, 1 ≤ m ∧ m ≤ 12 ∧ 1 ≤ d ∧ d ≤ daysIn m y ∧ 0 ≤ hh ∧ hh < 24 ∧
      0 ≤ mi ∧ mi < 60 ∧ 0 ≤ ss ∧ ss < 60 ∧ civilSeconds y m d hh mi ss = t.sec ∧
      t.UTC.FormatTimestamp = appendInt y 4 ++ '-' :: (appendInt m 2 ++ '-' ::
        (appendInt d 2 ++ 'T' :: (appendInt hh 2 ++ ':' :: (appendInt mi 2 ++ ':' ::
        (appendInt ss 2 ++ "+0000".toList))))) := by
  obtain ⟨a1, a2, a3, a4, a5⟩ := absDate_spec (t.sec / 86400)
  obtain ⟨b1, b2, b3, b4, b5, b6, b7⟩ := absClock_spec t.sec
  refine ⟨_, _, _, _, _, _, a1, a2, a3, a4, b1, b2, b3, b4, b5, b6, ?_, ?_⟩
  · simp only [civilSeconds, a5]
    omega
  · have hz : appendInt (Int.tdiv 0 60 / 60) 2 ++ appendInt (Int.tdiv 0 60 % 60) 2
        = "0000".toList := by decide
    simp only [Time.FormatTimestamp, Time.UTC, add_zero]
    have hs : (if Int.tdiv 0 60 < 0 then ['-'] else ['+']) = ['+'] := by decide
    have hzz : (if Int.tdiv 0 60 < 0 then -Int.tdiv 0 60 else Int.tdiv 0 60) = Int.tdiv 0 60 := by
      decide
    rw [hs, hzz]
    simp only [List.append_assoc, List.cons_append, List.nil_append]
    rw [hz]
    rfl

theorem digitChar_spec (k : Nat) (hk : k ≤ 9) :
    isDigitChar (digitChar k) = true ∧ (digitChar k).toNat - 48 = k ∧
      digitChar k ≠ '-' ∧ digitChar k ≠ '+' ∧ digitChar k ≠ '.' ∧ digitChar k ≠ ',' ∧
      digitChar k ≠ 'Z' := by
  interval_cases k <;> decide

theorem getnum_two (n : Nat) (hn : n ≤ 99) (fixed : Bool) (rest : Str) :
    getnum (two n ++ rest) fixed = some ((n : Int), rest) := by
  obtain ⟨a1, a2, -⟩ := digitChar_spec (n / 10) (by omega)
  obtain ⟨b1, b2, -⟩ := digitChar_spec (n % 10) (by omega)
  simp only [two, List.cons_append, List.nil_append, getnum, a1, b1, a2, b2, not_true_eq_false,
    if_false]
  congr 2
  omega

theorem stdNum_two (n : Nat) (hn : n ≤ 99) (fixed : Bool) (lo hi : Int) (rest : Str)
    (h1 : lo ≤ n) (h2 : (n : Int) ≤ hi) :
    stdNum (two n ++ rest) fixed lo hi = some ((n : Int), rest) := by
  simp [stdNum, getnum_two n hn, check, h1, h2]

theorem leadingInt_digits (ds : List Nat) (hd : ∀ d ∈ ds, d ≤ 9) :
    ∀ x : Nat, (x + 1) * 10 ^ ds.length ≤ 10 ^ 17 →
      leadingInt (ds.map digitChar) x = some (ds.foldl (fun a d => a * 10 + d) x, []) ∧
      ds.foldl (fun a d => a * 10 + d) x < (x + 1) * 10 ^ ds.length := by
  induction ds with
  | nil => intro x _; exact ⟨rfl, by simp⟩
  | cons d rest ih =>
    intro x hx
    obtain ⟨a1, a2, -⟩ := digitChar_spec d (hd d (List.mem_cons_self _ _))
    have hd9 : d ≤ 9 := hd d (List.mem_cons_self _ _)
    have hpow : 0 < 10 ^ rest.length := by positivity
    have hx2 : (x + 1) * 10 * 10 ^ rest.length ≤ 10 ^ 17 := by
      rw [List.length_cons, pow_succ] at hx
      calc (x + 1) * 10 * 10 ^ rest.length = (x + 1) * (10 ^ rest.length * 10) := by ring
        _ ≤ 10 ^ 17 := hx
    have hxs : (x + 1) * 10 ≤ 10 ^ 17 :=
      le_trans (Nat.le_mul_of_pos_right _ hpow) hx2
    obtain ⟨hq, hlt⟩ := ih (fun e he => hd e (List.mem_cons_of_mem _ he)) (x * 10 + d) (by
      calc (x * 10 + d + 1) * 10 ^ rest.length ≤ ((x + 1) * 10) * 10 ^ rest.length := by
            apply Nat.mul_le_mul_right; omega
        _ ≤ 10 ^ 17 := hx2)
    refine ⟨?_, ?_⟩
    · simp only [List.map_cons, leadingInt, a1, a2, not_true_eq_false, if_false, List.foldl_cons]
      rw [if_neg (by norm_num at hxs ⊢; omega), if_neg (by norm_num at hxs ⊢; omega)]
      exact hq
    · rw [List.foldl_cons]
      calc List.foldl (fun a d => a * 10 + d) (x * 10 + d) rest
          < (x * 10 + d + 1) * 10 ^ rest.length := hlt
        _ ≤ ((x + 1) * 10) * 10 ^ rest.length := by apply Nat.mul_le_mul_right; omega
        _ = (x + 1) * 10 ^ (d :: rest).length := by rw [List.length_cons, pow_succ]; ring

theorem atoi_digits (ds : List Nat) (hd : ∀ d ∈ ds, d ≤ 9) (hlen : ds.length ≤ 17) :
    atoi (ds.map digitChar) = some ((ds.foldl (fun a d => a * 10 + d) 0 : Nat) : Int) ∧
      ds.foldl (fun a d => a * 10 + d) 0 < 10 ^ ds.length := by
  have hpow : 10 ^ ds.length ≤ 10 ^ 17 := Nat.pow_le_pow_right (by decide) hlen
  obtain ⟨h1, h2⟩ := leadingInt_digits ds hd 0 (by simpa using hpow)
  simp only [zero_add, one_mul] at h2
  refine ⟨?_, h2⟩
  have hplus : ((ds.map digitChar).head? = some '+') = False := by
    cases ds with
    | nil => simp
    | cons d rest =>
      obtain ⟨-, -, c1, c2, -⟩ := digitChar_spec d (hd d (List.mem_cons_self _ _))
      simp [c2]
  have hneg : ((ds.map digitChar).head? = some '-') = False := by
    cases ds with
    | nil => simp
    | cons d rest =>
      obtain ⟨-, -, c1, c2, -⟩ := digitChar_spec d (hd d (List.mem_cons_self _ _))
      simp [c1]
  have hq : ds.foldl (fun a d => a * 10 + d) 0 < 2 ^ 63 :=
    lt_of_lt_of_le h2 (le_trans hpow (by norm_num))
  simp only [atoi, hplus, hneg, or_self, decide_False, Bool.false_eq_true, if_false, h1, hq,
    if_true]

theorem atoi_two (n : Nat) (hn : n ≤ 99) : atoi (two n) = some (n : Int) := by
  have h := (atoi_digits [n / 10, n % 10] (by
    intro d hd
    simp only [List.mem_cons, List.mem_singleton, List.not_mem_nil, or_false] at hd
    rcases hd with hd | hd <;> omega) (by simp)).1
  simp only [List.map_cons, List.map_nil, List.foldl_cons, List.foldl_nil] at h
  rw [two, h]
  congr 2
  omega

theorem atoi_four (n : Nat) (hn : n ≤ 9999) : atoi (four n) = some (n : Int) := by
  have h := (atoi_digits [n / 1000, n / 100 % 10, n / 10 % 10, n % 10] (by
    intro d hd
    simp only [List.mem_cons, List.mem_singleton, List.not_mem_nil, or_false] at hd
    rcases hd with hd | hd | hd | hd <;> omega) (by simp)).1
  simp only [List.map_cons, List.map_nil, List.foldl_cons, List.foldl_nil] at h
  rw [four, h]
  congr 2
  omega

theorem stdLongYear_four (n : Nat) (hn : n ≤ 9999) (rest : Str) :
    stdLongYear (four n ++ rest) = some ((n : Int), rest) := by
  obtain ⟨a1, -⟩ := digitChar_spec (n / 1000) (by omega)
  have ht : (four n ++ rest).take 4 = four n := by simp [four]
  have hd : (four n ++ rest).drop 4 = rest := by simp [four]
  have hc : check (4 ≤ (four n ++ rest).length ∧ isDigit (four n ++ rest) 0) = some () := by
    simp [check, four, isDigit, a1]
  simp only [stdLongYear, hc, ht, hd, atoi_four n hn, Option.bind]

theorem skip_cons (c : Char) (rest : Str) : skip (c :: rest) c = some rest := by
  simp [skip]

theorem Zone.render_head (z : Zone) :
    ∃ c rest, z.render = c :: rest ∧ isDigitChar c = false ∧ c ≠ '.' ∧ c ≠ ',' := by
  cases z with
  | Z => exact ⟨'Z', [], rfl, by decide, by decide, by decide⟩
  | plus h m => exact ⟨'+', _, rfl, by decide, by decide, by decide⟩
  | minus h m => exact ⟨'-', _, rfl, by decide, by decide, by decide⟩

theorem stdFrac_zone (z : Zone) : stdFrac z.render = some (0, z.render) := by
  cases z with
  | Z => rfl
  | plus h m => simp [stdFrac, Zone.render, two]
  | minus h m => simp [stdFrac, Zone.render, two]

theorem takeWhile_digits (fs : List Nat) (hf : ∀ d ∈ fs, d ≤ 9) (z : Zone) :
    (fs.map digitChar ++ z.render).takeWhile isDigitChar = fs.map digitChar := by
  induction fs with
  | nil =>
    obtain ⟨c, rest, hz, hc, -⟩ := z.render_head
    simp [hz, List.takeWhile, hc]
  | cons d rest ih =>
    obtain ⟨a1, -⟩ := digitChar_spec d (hf d (List.mem_cons_self _ _))
    simp only [List.map_cons, List.cons_append, List.takeWhile_cons, a1, if_true]
    rw [ih (fun e he => hf e (List.mem_cons_of_mem _ he))]

theorem stdFrac_digits (f : Nat) (fs : List Nat) (hf : ∀ d ∈ f :: fs, d ≤ 9) (z : Zone) :
    ∃ ns : Int, 0 ≤ ns ∧ ns < 1000000000 ∧
      stdFrac ('.' :: ((f :: fs).map digitChar ++ z.render)) = some (ns, z.render) := by
  obtain ⟨a1, -⟩ := digitChar_spec f (hf f (List.mem_cons_self _ _))
  have hfs : ∀ d ∈ fs, d ≤ 9 := fun e he => hf e (List.mem_cons_of_mem _ he)
  have htw := takeWhile_digits fs hfs z
  have hn : 2 + ((fs.map digitChar ++ z.render).takeWhile isDigitChar).length = 2 + fs.length := by
    rw [htw, List.length_map]
  have hdrop : ('.' :: ((f :: fs).map digitChar ++ z.render)).drop (2 + fs.length) = z.render := by
    have : 2 + fs.length = (('.' :: (f :: fs).map digitChar)).length := by simp; omega
    rw [this, ← List.cons_append, List.drop_left]
  -- the digits `atoi` reads
  obtain ⟨k, hk, hk9, hdig⟩ : ∃ k, k = (if 2 + fs.length > 10 then 10 else 2 + fs.length) - 1 ∧
      k ≤ 9 ∧
      (((if 2 + fs.length > 10 then ('.' :: ((f :: fs).map digitChar ++ z.render)).take 10
          else '.' :: ((f :: fs).map digitChar ++ z.render)).take
        (if 2 + fs.length > 10 then 10 else 2 + fs.length)).drop 1)
        = ((f :: fs).take k).map digitChar := by
    refine ⟨_, rfl, by split <;> omega, ?_⟩
    by_cases hbig : 2 + fs.length > 10
    · simp only [hbig, if_true, List.take_take, min_self]
      rw [show (10 : Nat) = 9 + 1 from rfl, List.take_succ_cons, List.drop_one, List.tail_cons]
      rw [List.take_append_of_le_length (by simp; omega), List.map_take]
    · simp only [hbig, if_false]
      rw [show 2 + fs.length = (1 + fs.length) + 1 by omega, List.take_succ_cons, List.drop_one,
        List.tail_cons]
      rw [List.take_append_of_le_length (by simp; omega)]
      simp only [Nat.add_sub_cancel]
      rw [List.map_take]
  obtain ⟨hat, hlt⟩ := atoi_digits ((f :: fs).take k)
    (fun e he => hf e (List.mem_of_mem_take he)) (by rw [List.length_take]; omega)
  have hlen : ((f :: fs).take k).length = k := by
    rw [List.length_take, List.length_cons, hk]; split <;> omega
  rw [hlen] at hlt
  have hexp : 10 - (if 2 + fs.length > 10 then 10 else 2 + fs.length) = 9 - k := by
    rw [hk]; split <;> omega
  refine ⟨((List.foldl (fun a d => a * 10 + d) 0 ((f :: fs).take k) : Nat) : Int) * 10 ^ (9 - k),
    by positivity, ?_, ?_⟩
  · have h9 : 10 ^ k * 10 ^ (9 - k) = 10 ^ 9 := by rw [← pow_add]; congr 1; omega
    have hpos : 0 < 10 ^ (9 - k) := by positivity
    have := Nat.mul_lt_mul_of_pos_right hlt hpos
    rw [h9] at this
    exact_mod_cast this
  · simp only [stdFrac, List.map_cons, List.cons_append, true_or, a1, and_self, if_true, hn]
    simp only [List.map_cons, List.cons_append] at hdig hdrop
    simp only [parseNanoseconds, hdig, hat, hexp, hdrop, Option.bind]
    rw [if_neg (not_lt.mpr (by positivity))]

theorem stdISO8601ColonTZ_render (z : Zone) (hz : z.Valid) :
    stdISO8601ColonTZ z.render = some (z.seconds, []) := by
  cases z with
  | Z => rfl
  | plus h m =>
    obtain ⟨hh, hm⟩ := hz
    have h1 := getnum_two h (by omega) true []
    have h2 := getnum_two m (by omega) true []
    have hh2 : (h : Int) ≤ 24 := by omega
    have hm2 : (m : Int) ≤ 60 := by omega
    simp only [two, List.cons_append, List.nil_append] at h1 h2
    simp [stdISO8601ColonTZ, Zone.render, two, check, h1, h2, Zone.seconds, hh2, hm2]
  | minus h m =>
    obtain ⟨hh, hm⟩ := hz
    have h1 := getnum_two h (by omega) true []
    have h2 := getnum_two m (by omega) true []
    have hh2 : (h : Int) ≤ 24 := by omega
    have hm2 : (m : Int) ≤ 60 := by omega
    simp only [two, List.cons_append, List.nil_append] at h1 h2
    simp [stdISO8601ColonTZ, Zone.render, two, check, h1, h2, Zone.seconds, hh2, hm2]

theorem stdFrac_render (frac : List Nat) (hf : ∀ d ∈ frac, d ≤ 9) (z : Zone) :
    ∃ ns : Int, 0 ≤ ns ∧ ns < 1000000000 ∧
      stdFrac (fracRender frac ++ z.render) = some (ns, z.render) := by
  cases frac with
  | nil => exact ⟨0, le_refl _, by decide, by simpa [fracRender] using stdFrac_zone z⟩
  | cons f fs =>
    obtain ⟨ns, h0, h1, h2⟩ := stdFrac_digits f fs hf z
    refine ⟨ns, h0, h1, ?_⟩
    simpa [fracRender] using h2

/-- `time.Parse` on the text of a timestamp with parts in range: the civil
time less the offset, a fraction below one second, the offset as location. -/
theorem timeParse_render (r : Rfc3339) (h : r.Valid) :
    ∃ ns : Int, 0 ≤ ns ∧ ns < 1000000000 ∧
      timeParse r.render = some { sec := r.instant, nsec := ns, offset := r.zone.seconds } := by
  obtain ⟨hy, hm1, hm2, hd1, hd2, hh, hmi, hs, hf, hz⟩ := h
  obtain ⟨ns, hns0, hns1, hfrac⟩ := stdFrac_render r.frac hf r.zone
  have hdle : r.day ≤ 99 := by
    have : daysIn (r.month : Int) (r.year : Int) ≤ 31 := by
      unfold daysIn
      obtain ⟨d0, d1, d2, d3, d4, d5, d6, d7, d8, d9, d10, d11, d12⟩ := daysBefore_vals
      have hmr : (1 : Int) ≤ r.month ∧ (r.month : Int) ≤ 12 := by omega
      obtain ⟨hm3, hm4⟩ := hmr
      generalize (r.month : Int) = mo at hm3 hm4 ⊢
      interval_cases mo <;> split <;>
        norm_num [d0, d1, d2, d3, d4, d5, d6, d7, d8, d9, d10, d11, d12]
    omega
  have e1 := stdLongYear_four r.year hy
  have e2 := fun rest => stdNum_two r.month (by omega) true 1 12 rest (by omega) (by omega)
  have e3 := fun rest => stdNum_two r.day hdle true 0 99 rest (by omega) (by omega)
  have e4 := fun rest => stdNum_two r.hour (by omega) false 0 23 rest (by omega) (by omega)
  have e5 := fun rest => stdNum_two r.minute (by omega) true 0 59 rest (by omega) (by omega)
  have e6 := fun rest => stdNum_two r.second (by omega) true 0 59 rest (by omega) (by omega)
  have e7 := stdISO8601ColonTZ_render r.zone hz
  have hday : (1 : Int) ≤ r.day ∧ (r.day : Int) ≤ daysIn r.month r.year := ⟨by omega, hd2⟩
  have hdate := Date_sec r.year r.month r.day r.hour r.minute r.second ns
    (by omega) (by omega) (by omega) (by omega) ⟨hns0, hns1⟩
  refine ⟨ns, hns0, hns1, ?_⟩
  simp only [timeParse, Rfc3339.render, e1, skip_cons, e2, e3, e4, e5, e6, hfrac, e7, ne_eq,
    not_true_eq_false, if_false, hday, and_self, hdate, Rfc3339.instant]

theorem digitsLoop_small (fuel u : Nat) (acc : Str) (hu : u < 10) :
    digitsLoop fuel u acc = digitChar u :: acc := by
  cases fuel with
  | zero => rfl
  | succ k => simp [digitsLoop, Nat.not_le.mpr hu]

theorem digitsLoop_large (fuel u : Nat) (acc : Str) (hu : 10 ≤ u) :
    digitsLoop (fuel + 1) u acc = digitsLoop fuel (u / 10) (digitChar (u % 10) :: acc) := by
  simp [digitsLoop, hu]

theorem appendInt_two (n : Nat) (hn : n ≤ 99) : appendInt (n : Int) 2 = two n := by
  have hzero : ('0' : Char) = digitChar 0 := by decide
  unfold appendInt
  simp only [Int.natAbs_ofNat, two]
  rw [if_neg (by omega)]
  by_cases h10 : n < 10
  · rw [digitsLoop_small _ _ _ h10]
    have e1 : n / 10 = 0 := by omega
    have e2 : n % 10 = n := by omega
    simp [e1, e2]
    exact hzero
  · obtain ⟨k, hk⟩ : ∃ k, n = k + 1 := ⟨n - 1, by omega⟩
    rw [hk, digitsLoop_large _ _ _ (by omega), digitsLoop_small _ _ _ (by omega)]
    simp

theorem appendInt_four (n : Nat) (hn : n ≤ 9999) : appendInt (n : Int) 4 = four n := by
  have hzero : ('0' : Char) = digitChar 0 := by decide
  unfold appendInt
  simp only [Int.natAbs_ofNat, four]
  rw [if_neg (by omega)]
  by_cases h10 : n < 10
  · rw [digitsLoop_small _ _ _ h10]
    have e1 : n / 1000 = 0 := by omega
    have e2 : n / 100 % 10 = 0 := by omega
    have e3 : n / 10 % 10 = 0 := by omega
    have e4 : n % 10 = n := by omega
    simp [e1, e2, e3, e4, List.replicate]
    exact hzero
  · obtain ⟨k, hk⟩ : ∃ k, n = k + 1 := ⟨n - 1, by omega⟩
    by_cases h100 : n < 100
    · rw [hk, digitsLoop_large _ _ _ (by omega), digitsLoop_small _ _ _ (by omega)]
      have e1 : (k + 1) / 1000 = 0 := by omega
      have e2 : (k + 1) / 100 % 10 = 0 := by omega
      have e3 : (k + 1) / 10 % 10 = (k + 1) / 10 := by omega
      simp [e1, e2, e3, List.replicate]
      exact hzero
    · obtain ⟨j, hj⟩ : ∃ j, k = j + 1 := ⟨k - 1, by omega⟩
      by_cases h1000 : n < 1000
      · rw [hk, digitsLoop_large _ _ _ (by omega), hj, digitsLoop_large _ _ _ (by omega),
          digitsLoop_small _ _ _ (by omega)]
        have e1 : (j + 1 + 1) / 1000 = 0 := by omega
        have e2 : (j + 1 + 1) / 100 % 10 = (j + 1 + 1) / 10 / 10 := by omega
        simp [e1, e2, List.replicate]
        exact hzero
      · obtain ⟨i, hi⟩ : ∃ i, j = i + 1 := ⟨j - 1, by omega⟩
        rw [hk, digitsLoop_large _ _ _ (by omega), hj, digitsLoop_large _ _ _ (by omega),
          hi, digitsLoop_large _ _ _ (by omega), digitsLoop_small _ _ _ (by omega)]
        have e1 : (i + 1 + 1 + 1) / 1000 = (i + 1 + 1 + 1) / 10 / 10 / 10 := by omega
        have e2 : (i + 1 + 1 + 1) / 100 % 10 = (i + 1 + 1 + 1) / 10 / 10 % 10 := by omega
        simp [e1, e2]

/-- The two readings of the text agree for the years 0 to 9999. -/
theorem utcText_fixed (y m d hh mi ss : Int) (h : CivilTime y m d hh mi ss) (hy0 : 0 ≤ y)
    (hy1 : y ≤ 9999) :
    utcText y m d hh mi ss
      = utcTextFixed y.toNat m.toNat d.toNat hh.toNat mi.toNat ss.toNat := by
  obtain ⟨h1, h2, h3, h4, h5, h6, h7, h8, h9, h10⟩ := h
  have hd31 : d ≤ 31 := by
    have : daysIn m y ≤ 31 := by
      unfold daysIn
      obtain ⟨d0, d1, d2, d3, d4, d5, d6, d7, d8, d9, d10, d11, d12⟩ := daysBefore_vals
      interval_cases m <;> split <;>
        norm_num [d0, d1, d2, d3, d4, d5, d6, d7, d8, d9, d10, d11, d12]
    omega
  have ey : y = ((y.toNat : Nat) : Int) := (Int.toNat_of_nonneg hy0).symm
  have em : m = ((m.toNat : Nat) : Int) := (Int.toNat_of_nonneg (by omega)).symm
  have ed : d = ((d.toNat : Nat) : Int) := (Int.toNat_of_nonneg (by omega)).symm
  have eh : hh = ((hh.toNat : Nat) : Int) := (Int.toNat_of_nonneg h5).symm
  have emi : mi = ((mi.toNat : Nat) : Int) := (Int.toNat_of_nonneg h7).symm
  have es : ss = ((ss.toNat : Nat) : Int) := (Int.toNat_of_nonneg h9).symm
  unfold utcText utcTextFixed
  conv_lhs => rw [ey, em, ed, eh, emi, es]
  rw [appendInt_four _ (by omega), appendInt_two _ (by omega), appendInt_two _ (by omega),
    appendInt_two _ (by omega), appendInt_two _ (by omega), appendInt_two _ (by omega)]

/-- What the line parser yields on a line in the wire format whose first
field `time.Parse` accepts as the time `t`. -/
theorem parseLine_timestamp (w : WireLine) (hw : w.WellFormed) (t : Time)
    (ht : timeParse w.timestamp = some t) :
    ∃ doc y m d hh mi ss, parseLine w.render = some doc ∧ CivilTime y m d hh mi ss ∧
      civilSeconds y m d hh mi ss = t.sec ∧ doc.timestamp = utcText y m d hh mi ss ∧
      (0 ≤ y → y ≤ 9999 → doc.timestamp
        = utcTextFixed y.toNat m.toNat d.toNat hh.toNat mi.toNat ss.toNat) := by
  have hp := parseLine_render w hw
  rw [ht] at hp
  obtain ⟨y, m, d, hh, mi, ss, a1, a2, a3, a4, a5, a6, a7, a8, a9, a10, a11, a12⟩ :=
    FormatTimestamp_civil t
  have hc : CivilTime y m d hh mi ss := ⟨a1, a2, a3, a4, a5, a6, a7, a8, a9, a10⟩
  refine ⟨_, y, m, d, hh, mi, ss, hp, hc, a11, a12, ?_⟩
  intro hy0 hy1
  rw [← utcText_fixed y m d hh mi ss hc hy0 hy1]
  exact a12

/-- The lines the parser panics on are exactly the malformed ones. -/
theorem parseLine_eq_none_iff (oline : Str) : parseLine oline = none ↔ Malformed oline := by
  constructor
  · intro hnone
    by_contra hm
    unfold Malformed at hm
    push_neg at hm
    obtain ⟨h1, h2, seg, hseg, h3, t1, ht1, h4⟩ := hm
    have e1 := List.getElem?_eq_getElem (l := Split oline space) (n := 1) (by omega)
    have e2 := List.getElem?_eq_getElem (l := Split oline space) (n := 2) (by omega)
    have e3 := List.getElem?_eq_getElem (l := Split oline space) (n := 3) (by omega)
    have e4 := List.getElem?_eq_getElem (l := Split oline space) (n := 4) (by omega)
    have e5 := List.getElem?_eq_getElem (l := Split oline space) (n := 5) (by omega)
    have e6 := List.getElem?_eq_getElem (l := Split oline space) (n := 6) (by omega)
    have e7 := List.getElem?_eq_getElem (l := Split oline space) (n := 7) (by omega)
    have e8 := List.getElem?_eq_getElem (l := Split oline space) (n := 8) (by omega)
    have e9 := List.getElem?_eq_getElem (l := Split oline space) (n := 9) (by omega)
    have e10 := List.getElem?_eq_getElem (l := Split oline space) (n := 10) (by omega)
    have e11 := List.getElem?_eq_getElem (l := Split oline space) (n := 11) (by omega)
    have e12 := List.getElem?_eq_getElem (l := Split oline space) (n := 12) (by omega)
    have e13 := List.getElem?_eq_getElem (l := Split oline space) (n := 13) (by omega)
    have et0 := List.getElem?_eq_getElem (l := Split seg quote) (n := 0) (by omega)
    have ec1 := List.getElem?_eq_getElem (l := Split t1 space) (n := 1) (by omega)
    have ec2 := List.getElem?_eq_getElem (l := Split t1 space) (n := 2) (by omega)
    simp only [parseLine, hseg, e1, e2, e3, e4, e5, e6, e7, e8, e9, e10, e11, e12, e13, et0,
      ht1, ec1, ec2] at hnone
    exact absurd hnone (by simp)
  · exact parseLine_of_malformed oline

theorem step_num (L : Int) (backend : Backend) (s : Session) (inp : Str × Time)
    (h : (step L backend s inp).panicked = false) :
    s.panicked = false ∧ (step L backend s inp).num = s.num + 1 := by
  unfold step at h ⊢
  by_cases hp : s.panicked = true
  · rw [if_pos hp] at h
    rw [h] at hp
    exact absurd hp (by simp)
  · rw [if_neg hp] at h ⊢
    simp only [] at h ⊢
    by_cases hpa : (addLine s inp).panicked = true
    · rw [if_pos hpa] at h
      rw [h] at hpa
      exact absurd hpa (by simp)
    · rw [if_neg hpa] at h ⊢
      have hnum : (addLine s inp).num = s.num := by
        unfold addLine
        cases parseLine inp.1 with
        | none => split <;> rfl
        | some doc => split <;> rfl
      by_cases hfull : ((addLine s inp).requests.length : Int) = L
      · rw [if_pos hfull] at h ⊢
        by_cases hpf : (flush backend (addLine s inp)).panicked = true
        · rw [if_pos hpf] at h
          rw [h] at hpf
          exact absurd hpf (by simp)
        · rw [if_neg hpf]
          have hfn : (flush backend (addLine s inp)).num = (addLine s inp).num := by
            unfold flush
            cases backend (addLine s inp).calls.length (addLine s inp).requests <;> rfl
          exact ⟨by simpa using hp, by simp only [hfn, hnum]⟩
      · rw [if_neg hfull, if_neg hpa]
        exact ⟨by simpa using hp, by simp only [hnum]⟩

theorem stream_num (L : Int) (backend : Backend) (lines : List (Str × Time)) :
    ∀ s : Session, (stream L backend s lines).panicked = false →
      (stream L backend s lines).num = s.num + lines.length := by
  induction lines with
  | nil => intro s _; simp [stream]
  | cons inp rest ih =>
    intro s h
    rw [stream_cons] at h ⊢
    have h1 := ih (step L backend s inp) h
    have hsp : (step L backend s inp).panicked = false := by
      by_contra hc
      have hc2 : (step L backend s inp).panicked = true := by simpa using hc
      rw [stream_of_panicked L backend rest _ hc2] at h
      rw [h] at hc2
      exact absurd hc2 (by simp)
    obtain ⟨-, h2⟩ := step_num L backend s inp hsp
    rw [h1, h2, List.length_cons]
    push_cast
    ring

/-- The count a session that ends without a panic logs: one more than the
number of lines. -/
theorem session_lines_processed (L : Int) (backend : Backend) (lines : List (Str × Time))
    (h : (session L backend Session.init lines).panicked = false) :
    (session L backend Session.init lines).log.getLast?
      = some (LogEntry.linesProcessed ((lines.length : Int) + 1)) := by
  unfold session at h ⊢
  rw [if_neg (by decide)] at h ⊢
  simp only [] at h ⊢
  have e0 : ({ Session.init with requests := [], num := 1 } : Session) = Session.init := rfl
  rw [e0] at h ⊢
  by_cases hs : (stream L backend Session.init lines).panicked = true
  · rw [if_pos hs] at h
    rw [h] at hs
    exact absurd hs (by simp)
  · rw [if_neg hs] at h ⊢
    have hsn := stream_num L backend lines Session.init (by simpa using hs)
    have hnum : (if (stream L backend Session.init lines).requests.length > 0 then
        flush backend (stream L backend Session.init lines)
        else stream L backend Session.init lines).num = (lines.length : Int) + 1 := by
      split
      · have hfn : (flush backend (stream L backend Session.init lines)).num
            = (stream L backend Session.init lines).num := by
          unfold flush
          cases backend (stream L backend Session.init lines).calls.length
            (stream L backend Session.init lines).requests <;> rfl
        rw [hfn, hsn]
        simp [Session.init]
        ring
      · rw [hsn]
        simp [Session.init]
        ring
    generalize (if (stream L backend Session.init lines).requests.length > 0 then
        flush backend (stream L backend Session.init lines)
        else stream L backend Session.init lines) = st2 at h hnum ⊢
    by_cases hp2 : st2.panicked = true
    · rw [if_pos hp2] at h
      rw [h] at hp2
      exact absurd hp2 (by simp)
    · rw [if_neg hp2]
      simp only [hnum]
      exact List.getLast?_concat _


set_option maxRecDepth 100000 in
/-- The boundary of what `time.Parse` accepts under the layout: a second of
60 and a lower-case `t` are rejected, a one-digit hour is accepted; in the
offset a sign in place of a digit, an hour above 24 and a minute above 60 are
rejected. -/
theorem timeParse_boundary :
    timeParse "2016-12-31T23:59:60Z".toList = none ∧
    timeParse "2015-05-13t23:39:43Z".toList = none ∧
    timeParse "2015-05-13T3:39:43Z".toList
      = timeParse "2015-05-13T03:39:43Z".toList ∧
    (timeParse "2015-05-13T03:39:43Z".toList).isSome = true ∧
    timeParse "2015-05-13T23:39:43+-1:30".toList = none ∧
    timeParse "2015-05-13T23:39:43+25:00".toList = none ∧
    timeParse "2015-05-13T23:39:43+00:61".toList = none := by
  decide
/-! ## Chunks of the line stream -/

theorem lineRequest_eq : lineRequest = requestOf := rfl

theorem chunk_append {α : Type} (L j : Nat) (seen rest : List α) (h : j * L + L ≤ seen.length) :
    ((seen ++ rest).drop (j * L)).take L = (seen.drop (j * L)).take L := by
  rw [List.drop_append_of_le_length (by omega),
    List.take_append_of_le_length (by rw [List.length_drop]; omega)]

theorem mul_add_le_of_lt (L j q : Nat) (h : j < q) : j * L + L ≤ q * L := by
  have h1 := Nat.mul_le_mul_right L (Nat.succ_le_of_lt h)
  rw [Nat.succ_mul] at h1
  exact h1

theorem chunks_append {α β : Type} (f : α → Option β) (L q : Nat) (seen rest : List α)
    (h : q * L ≤ seen.length) :
    (List.range q).map (fun j => (((seen ++ rest).drop (j * L)).take L).filterMap f)
      = (List.range q).map (fun j => ((seen.drop (j * L)).take L).filterMap f) := by
  apply List.map_congr_left
  intro j hj
  have h1 := mul_add_le_of_lt L j q (List.mem_range.mp hj)
  rw [chunk_append L j seen rest (by omega)]

theorem filterMap_getElem {α β : Type} (f : α → Option β) :
    ∀ (l : List α) (i : Nat) (r : β), (∀ x ∈ l, (f x).isSome) →
      (l.filterMap f)[i]? = some r → ∃ x, l[i]? = some x ∧ f x = some r
  | [], i, r, _, h => by simp at h
  | x :: xs, i, r, hall, h => by
    obtain ⟨y, hy⟩ := Option.isSome_iff_exists.mp (hall x (List.mem_cons_self _ _))
    rw [List.filterMap_cons_some hy] at h
    cases i with
    | zero =>
      simp only [List.getElem?_cons_zero, Option.some.injEq] at h
      exact ⟨x, by simp, by rw [hy, h]⟩
    | succ i =>
      simp only [List.getElem?_cons_succ] at h
      obtain ⟨x', h1, h2⟩ := filterMap_getElem f xs i r
        (fun z hz => hall z (List.mem_cons_of_mem _ hz)) h
      exact ⟨x', by simpa using h1, h2⟩

theorem length_filterMap_of_isSome {α β : Type} (f : α → Option β) :
    ∀ (l : List α), (∀ x ∈ l, (f x).isSome) → (l.filterMap f).length = l.length
  | [], _ => rfl
  | x :: xs, hall => by
    obtain ⟨y, hy⟩ := Option.isSome_iff_exists.mp (hall x (List.mem_cons_self _ _))
    rw [List.filterMap_cons_some hy, List.length_cons, List.length_cons,
      length_filterMap_of_isSome f xs (fun z hz => hall z (List.mem_cons_of_mem _ hz))]

theorem requestOf_isSome (inp : Str × Time) (h : (parseLine inp.1).isSome) :
    (requestOf inp).isSome := by
  obtain ⟨doc, hdoc⟩ := Option.isSome_iff_exists.mp h
  simp [requestOf, hdoc]

theorem eq_chunks {α : Type} (L : Nat) :
    ∀ (xs : List (List α)) (q : Nat), xs.map List.length = List.replicate q L →
      xs = (List.range q).map (fun j => (xs.flatten.drop (j * L)).take L)
  | [], q, h => by
    cases q with
    | zero => rfl
    | succ q => simp [List.replicate_succ] at h
  | x :: xs, q, h => by
    cases q with
    | zero => simp at h
    | succ q =>
      simp only [List.map_cons, List.replicate_succ, List.cons.injEq] at h
      obtain ⟨hx, hxs⟩ := h
      have ih := eq_chunks L xs q hxs
      rw [List.range_succ_eq_map, List.map_cons, List.map_map]
      simp only [List.flatten_cons, Nat.zero_mul, List.drop_zero]
      congr 1
      · exact (List.take_left' hx).symm
      · conv_lhs => rw [ih]
        apply List.map_congr_left
        intro j _
        simp only [Function.comp]
        rw [Nat.succ_mul, Nat.add_comm (j * L) L, ← List.drop_drop, List.drop_left' hx]

theorem take_drop_take {α : Type} (L j M : Nat) (l : List α) (h : j * L + L ≤ M)
    (hM : M ≤ l.length) :
    ((l.take M).drop (j * L)).take L = (l.drop (j * L)).take L := by
  conv_rhs => rw [← List.take_append_drop M l]
  rw [chunk_append L j (l.take M) (l.drop M) (by rw [List.length_take]; omega)]

theorem doc_requestOf (lines : List (Str × Time)) :
    (lines.filterMap requestOf).map BulkIndexRequest.doc = docsOf lines := by
  unfold docsOf
  rw [List.map_filterMap]
  congr 1
  funext inp
  simp only [requestOf, Option.map_map]
  cases parseLine inp.1 <;> rfl
theorem addLine_of_parsed (s : Session) (inp : Str × Time) (doc : Elog)
    (hdoc : parseLine inp.1 = some doc) :
    (addLine s inp).panicked = s.panicked ∧ (addLine s inp).calls = s.calls ∧
      (addLine s inp).requests = s.requests ++ [indexRequest inp.2 doc] := by
  unfold addLine
  simp only [hdoc]
  split <;> simp

theorem ChunkInv_step (L : Nat) (backend : Backend) (base : List (List BulkIndexRequest))
    (s : Session) (seen : List (Str × Time)) (inp : Str × Time) (doc : Elog)
    (hdoc : parseLine inp.1 = some doc) (hp : s.panicked = false)
    (h : ChunkInv L base s seen) :
    ChunkInv L base (step L backend s inp) (seen ++ [inp]) := by
  obtain ⟨hall, q, hq, hcalls, hrun⟩ := h
  obtain ⟨hlt, hreq⟩ := hrun hp
  obtain ⟨ha1, ha2, ha3⟩ := addLine_of_parsed s inp doc hdoc
  rw [hp] at ha1
  have hr : requestOf inp = some (indexRequest inp.2 doc) := by simp [requestOf, hdoc]
  have hall2 : ∀ x ∈ seen ++ [inp], (parseLine x.1).isSome := by
    intro x hx
    rcases List.mem_append.mp hx with hx | hx
    · exact hall x hx
    · rw [List.mem_singleton.mp hx, hdoc]; rfl
  have hreq2 : (addLine s inp).requests = ((seen ++ [inp]).drop (q * L)).filterMap requestOf := by
    rw [ha3, hreq, List.drop_append_of_le_length hq, List.filterMap_append]
    simp [hr]
  have hlen2 : (addLine s inp).requests.length = seen.length + 1 - q * L := by
    rw [hreq2, length_filterMap_of_isSome requestOf _
      (fun x hx => requestOf_isSome x (hall2 x (List.mem_of_mem_drop hx))),
      List.length_drop, List.length_append, List.length_singleton]
  have hcalls2 : s.calls = base ++ (List.range q).map
      (fun j => (((seen ++ [inp]).drop (j * L)).take L).filterMap requestOf) := by
    rw [chunks_append requestOf L q seen [inp] hq]; exact hcalls
  have hcalls3 : s.calls ++ [(addLine s inp).requests] = base ++ (List.range (q + 1)).map
      (fun j => (((seen ++ [inp]).drop (j * L)).take L).filterMap requestOf) := by
    rw [List.range_succ, List.map_append, ← List.append_assoc, ← hcalls2, hreq2]
    simp only [List.map_cons, List.map_nil]
    have hlen3 : ((seen ++ [inp]).drop (q * L)).length ≤ L := by
      rw [List.length_drop, List.length_append, List.length_singleton]
      omega
    rw [List.take_of_length_le hlen3]
  unfold step
  rw [if_neg (by simp [hp]), if_neg (by simp [ha1])]
  by_cases hfull : seen.length + 1 = q * L + L
  · have hcmp : (((addLine s inp).requests.length : Nat) : Int) = (L : Int) := by
      rw [hlen2]; congr 1; omega
    simp only [hcmp, if_true]
    have hsucc : (q + 1) * L = q * L + L := Nat.succ_mul q L
    cases hb : backend (addLine s inp).calls.length (addLine s inp).requests with
    | none =>
      obtain ⟨f1, f2, f3, -⟩ := flush_none backend _ hb
      rw [if_pos f1]
      refine ⟨hall2, q + 1, ?_, ?_, ?_⟩
      · rw [List.length_append, List.length_singleton]; omega
      · rw [f3, ha2]; exact hcalls3
      · intro hc; rw [f1] at hc; exact absurd hc (by simp)
    | some resp =>
      obtain ⟨f1, f2, f3⟩ := flush_some backend _ resp hb
      rw [ha1] at f1
      rw [if_neg (by simp [f1])]
      refine ⟨hall2, q + 1, ?_, ?_, ?_⟩
      · rw [List.length_append, List.length_singleton]; omega
      · show (flush backend (addLine s inp)).calls = _
        rw [f3, ha2]; exact hcalls3
      · intro _
        refine ⟨by rw [List.length_append, List.length_singleton]; omega, ?_⟩
        show (flush backend (addLine s inp)).requests = _
        have hlen4 : (seen ++ [inp]).length ≤ (q + 1) * L := by
          rw [List.length_append, List.length_singleton]
          omega
        rw [f2, List.drop_eq_nil_of_le hlen4]
        rfl
  · have hcmp : ¬ ((((addLine s inp).requests.length : Nat) : Int) = (L : Int)) := by
      rw [hlen2]
      intro hc
      have : seen.length + 1 - q * L = L := by exact_mod_cast hc
      omega
    simp only [hcmp, if_false, ha1, Bool.false_eq_true]
    refine ⟨hall2, q, ?_, ?_, ?_⟩
    · rw [List.length_append, List.length_singleton]; omega
    · show (addLine s inp).calls = _
      rw [ha2]; exact hcalls2
    · intro _
      refine ⟨by rw [List.length_append, List.length_singleton]; omega, ?_⟩
      show (addLine s inp).requests = _
      exact hreq2

theorem ChunkInv_of_panicked (L : Nat) (base : List (List BulkIndexRequest)) (s t : Session)
    (seen : List (Str × Time)) (h : ChunkInv L base s seen) (hc : t.calls = s.calls)
    (hp : t.panicked = true) : ChunkInv L base t seen := by
  obtain ⟨hall, q, hq, hcalls, -⟩ := h
  refine ⟨hall, q, hq, by rw [hc]; exact hcalls, ?_⟩
  intro h2; rw [hp] at h2; exact absurd h2 (by simp)

theorem ChunkInv_stream (L : Nat) (backend : Backend) (base : List (List BulkIndexRequest)) :
    ∀ (lines : List (Str × Time)) (s : Session) (seen : List (Str × Time)),
      ChunkInv L base s seen →
      ∃ seen2 rest, seen ++ lines = seen2 ++ rest ∧
        ChunkInv L base (stream L backend s lines) seen2 ∧
        ((stream L backend s lines).panicked = false → rest = [])
  | [], s, seen, h => ⟨seen, [], rfl, h, fun _ => rfl⟩
  | inp :: rest0, s, seen, h => by
    by_cases hp : s.panicked = true
    · rw [stream_of_panicked L backend _ s hp]
      exact ⟨seen, inp :: rest0, rfl, h, fun hc => by rw [hp] at hc; exact absurd hc (by simp)⟩
    · have hp2 : s.panicked = false := by simpa using hp
      rw [stream_cons]
      cases hdoc : parseLine inp.1 with
      | none =>
        obtain ⟨m1, m2⟩ := step_of_malformed L backend s inp hdoc
        rw [stream_of_panicked L backend _ _ m1]
        exact ⟨seen, inp :: rest0, rfl, ChunkInv_of_panicked L base s _ seen h m2 m1,
          fun hc => by rw [m1] at hc; exact absurd hc (by simp)⟩
      | some doc =>
        have h1 := ChunkInv_step L backend base s seen inp doc hdoc hp2 h
        obtain ⟨seen2, rest, e, h2, h3⟩ :=
          ChunkInv_stream L backend base rest0 (step L backend s inp) (seen ++ [inp]) h1
        exact ⟨seen2, rest, by rw [← e]; simp, h2, h3⟩

theorem session_calls (L : Int) (backend : Backend) (s0 : Session) (lines : List (Str × Time))
    (h0 : s0.panicked = false)
    (hs : (stream L backend { s0 with requests := [], num := 1 } lines).panicked = false) :
    (session L backend s0 lines).calls
      = (stream L backend { s0 with requests := [], num := 1 } lines).calls
        ++ (if (stream L backend { s0 with requests := [], num := 1 } lines).requests.length > 0
            then [(stream L backend { s0 with requests := [], num := 1 } lines).requests]
            else []) ∧
    ((session L backend s0 lines).panicked = false →
      (session L backend s0 lines).requests = []) := by
  unfold session
  rw [if_neg (by simp [h0])]
  simp only []
  rw [if_neg (by simp [hs])]
  by_cases hlen : (stream L backend { s0 with requests := [], num := 1 } lines).requests.length > 0
  · simp only [hlen, if_true]
    cases hb : backend (stream L backend { s0 with requests := [], num := 1 } lines).calls.length
        (stream L backend { s0 with requests := [], num := 1 } lines).requests with
    | none =>
      obtain ⟨f1, f2, f3, -⟩ := flush_none backend _ hb
      rw [if_pos f1]
      exact ⟨f3, fun hc => by rw [f1] at hc; exact absurd hc (by simp)⟩
    | some resp =>
      obtain ⟨f1, f2, f3⟩ := flush_some backend _ resp hb
      rw [hs] at f1
      rw [if_neg (by simp [f1])]
      exact ⟨f3, fun _ => f2⟩
  · simp only [hlen, if_false, hs, Bool.false_eq_true, List.append_nil, true_and]
    intro _
    exact List.length_eq_zero.mp (by omega)
/-- The calls of a session, whatever the backend answers: the first `n`
chunks of `L` lines, each with the requests of its lines in order. -/
theorem session_chunks (L : Nat) (hL : 1 ≤ L) (backend : Backend) (s0 : Session)
    (h0 : s0.panicked = false) (lines : List (Str × Time)) :
    ∃ n, n * L < lines.length + L ∧
      (session L backend s0 lines).calls = s0.calls ++ (List.range n).map
        (fun j => ((lines.drop (j * L)).take L).filterMap requestOf) ∧
      (∀ j, j < n → ∀ inp ∈ (lines.drop (j * L)).take L, (parseLine inp.1).isSome) ∧
      ((session L backend s0 lines).panicked = false → lines.length ≤ n * L) := by
  have hinit : ChunkInv L s0.calls { s0 with requests := [], num := 1 } [] :=
    ⟨fun _ h => absurd h (List.not_mem_nil _), 0, by simp, by simp,
      fun _ => ⟨by simp; omega, by simp⟩⟩
  obtain ⟨seen, rest, e, hinv, hrest⟩ := ChunkInv_stream L backend s0.calls lines _ [] hinit
  rw [List.nil_append] at e
  obtain ⟨hall, q, hq, hcalls, hrun⟩ := hinv
  have hcalls2 : (stream L backend { s0 with requests := [], num := 1 } lines).calls
      = s0.calls ++ (List.range q).map
        (fun j => ((lines.drop (j * L)).take L).filterMap requestOf) := by
    rw [hcalls, e, chunks_append requestOf L q seen rest hq]
  have hlen : lines.length = seen.length + rest.length := by rw [e, List.length_append]
  have hallq : ∀ j, j < q → ∀ inp ∈ (lines.drop (j * L)).take L, (parseLine inp.1).isSome := by
    intro j hj inp hi
    have h1 := mul_add_le_of_lt L j q hj
    rw [e, chunk_append L j seen rest (by omega)] at hi
    exact hall inp (List.mem_of_mem_drop (List.mem_of_mem_take hi))
  by_cases hs : (stream L backend { s0 with requests := [], num := 1 } lines).panicked = true
  · obtain ⟨g1, g2⟩ := session_of_stream_panicked L backend s0 lines hs
    refine ⟨q, by omega, by rw [g2]; exact hcalls2, hallq, ?_⟩
    intro hc; rw [g1] at hc; exact absurd hc (by simp)
  · have hs2 : (stream L backend { s0 with requests := [], num := 1 } lines).panicked = false := by
      simpa using hs
    obtain ⟨hlt, hreq⟩ := hrun hs2
    have hr0 := hrest hs2
    subst hr0
    rw [List.append_nil] at e
    subst e
    obtain ⟨g1, -⟩ := session_calls L backend s0 lines h0 hs2
    have hreqlen : (stream L backend { s0 with requests := [], num := 1 } lines).requests.length
        = lines.length - q * L := by
      rw [hreq, length_filterMap_of_isSome requestOf _
        (fun x hx => requestOf_isSome x (hall x (List.mem_of_mem_drop hx))), List.length_drop]
    by_cases hpos : (stream L backend { s0 with requests := [], num := 1 } lines).requests.length > 0
    · have hsucc : (q + 1) * L = q * L + L := Nat.succ_mul q L
      refine ⟨q + 1, by omega, ?_, ?_, fun _ => by omega⟩
      · rw [g1, if_pos hpos, hcalls2, List.range_succ, List.map_append, List.append_assoc, hreq]
        simp only [List.map_cons, List.map_nil]
        have hlen3 : (lines.drop (q * L)).length ≤ L := by
          rw [List.length_drop]
          omega
        rw [List.take_of_length_le hlen3]
      · intro j hj inp hi
        exact hall inp (List.mem_of_mem_drop (List.mem_of_mem_take hi))
    · refine ⟨q, by omega, ?_, hallq, fun _ => by omega⟩
      rw [g1, if_neg hpos, List.append_nil, hcalls2]

theorem streamActions_bounded (L : Int) (backend : Backend) :
    ∀ (lines : List (Str × Time)) (s : Session), Bounded L s →
      ∀ a ∈ streamActions L backend s lines, (a : Int) ≤ L
  | [], _, _, a, ha => by simp [streamActions] at ha
  | inp :: rest, s, h, a, ha => by
    unfold streamActions at ha
    rcases List.mem_append.mp ha with ha | ha
    · by_cases hp : s.panicked = true
      · simp [hp] at ha
      · by_cases hpa : (addLine s inp).panicked = true
        · simp [hpa] at ha
        · rw [if_neg (by simp [hp, hpa])] at ha
          rw [List.mem_singleton.mp ha]
          have hadd := (addLine_requests_length s inp).1
          rcases h with h | h
          · omega
          · exact absurd h.1 hp
    · exact streamActions_bounded L backend rest _ (Bounded_step L backend s inp h) a ha

theorem sessionActions_bounded (L : Int) (hL : 1 ≤ L) (backend : Backend) (s0 : Session)
    (lines : List (Str × Time)) :
    ∀ a ∈ sessionActions L backend s0 lines, (a : Int) ≤ L := by
  intro a ha
  unfold sessionActions at ha
  by_cases h0 : s0.panicked = true
  · simp [h0] at ha
  · rw [if_neg h0] at ha
    have hb0 : Bounded L { s0 with requests := [], num := 1 } :=
      Or.inl (by simp only [List.length_nil]; omega)
    rcases List.mem_append.mp ha with ha | ha
    · exact streamActions_bounded L backend lines _ hb0 a ha
    · by_cases hs : (stream L backend { s0 with requests := [], num := 1 } lines).panicked = true
      · simp [hs] at ha
      · rw [if_neg hs] at ha
        rw [List.mem_singleton.mp ha]
        rcases Bounded_stream L backend lines _ hb0 with hb | hb
        · omega
        · exact absurd hb.1 hs

set_option maxRecDepth 100000 in
theorem Config_cases (env : Str) :
    (env = "LIVE".toList ∨ env = "DEV".toList ∨ env = "LOCAL".toList) ∨
      Config.lookup env = none := by
  by_cases h1 : env = "LIVE".toList
  · exact Or.inl (Or.inl h1)
  · by_cases h2 : env = "DEV".toList
    · exact Or.inl (Or.inr (Or.inl h2))
    · by_cases h3 : env = "LOCAL".toList
      · exact Or.inl (Or.inr (Or.inr h3))
      · right
        have e1 : (env == "LIVE".toList) = false := by simpa using h1
        have e2 : (env == "DEV".toList) = false := by simpa using h2
        have e3 : (env == "LOCAL".toList) = false := by simpa using h3
        simp only [Config, List.lookup, e1, e2, e3]

set_option maxRecDepth 100000 in
/-- An environment either has a configuration entry, with the bulk limit
6000 and a region, or has none, with the bulk limit 0 and the empty region. -/
theorem bulkLimit_cases (arn : Str) :
    (bulkLimit arn = 6000 ∧ configValue (envOf arn) "region".toList = "eu-west-1".toList) ∨
      (bulkLimit arn = 0 ∧ configValue (envOf arn) "region".toList = []) := by
  unfold bulkLimit
  rcases Config_cases (envOf arn) with h | h
  · left
    rcases h with h | h | h <;> rw [h] <;> exact ⟨by decide, by decide⟩
  · right
    simp only [configValue, h]
    exact ⟨by decide, trivial⟩

theorem record_of_no_region (arn : Str) (backend : Backend) (s : Session)
    (object : List (Str × Time)) (h : configValue (envOf arn) "region".toList = [])
    (hp : s.panicked = false) :
    record arn backend s object
      = { s with log := s.log ++ [LogEntry.getObjectFailed], panicked := true } := by
  unfold record
  rw [if_neg (by simp [hp]), h]
  rfl

theorem record_of_panicked (arn : Str) (backend : Backend) (s : Session)
    (object : List (Str × Time)) (hp : s.panicked = true) :
    record arn backend s object = s := by
  unfold record
  rw [if_pos hp]

theorem foldl_record_of_panicked (arn : Str) (backend : Backend) :
    ∀ (records : List (List (Str × Time))) (s : Session), s.panicked = true →
      records.foldl (record arn backend) s = s
  | [], _, _ => rfl
  | o :: rest, s, hp => by
    rw [List.foldl_cons, record_of_panicked arn backend s o hp]
    exact foldl_record_of_panicked arn backend rest s hp

theorem handleActions_bounded (arn : Str) (backend : Backend) :
    ∀ (records : List (List (Str × Time))) (s : Session),
      ∀ a ∈ handleActions arn backend s records, (a : Int) ≤ bulkLimit arn
  | [], _, a, ha => by simp [handleActions] at ha
  | object :: rest, s, a, ha => by
    unfold handleActions at ha
    rcases List.mem_append.mp ha with ha | ha
    · by_cases hp : s.panicked = true
      · simp [hp] at ha
      · rw [if_neg hp] at ha
        rcases bulkLimit_cases arn with ⟨h1, h2⟩ | ⟨h1, h2⟩
        · rw [h2] at ha
          exact sessionActions_bounded (bulkLimit arn) (by rw [h1]; decide) backend s object a ha
        · rw [h2] at ha
          exact absurd ha (List.not_mem_nil _)
    · exact handleActions_bounded arn backend rest _ a ha

theorem handleActions_of_no_region (arn : Str) (backend : Backend)
    (h : configValue (envOf arn) "region".toList = []) :
    ∀ (records : List (List (Str × Time))) (s : Session),
      handleActions arn backend s records = []
  | [], _ => rfl
  | object :: rest, s => by
    unfold handleActions
    rw [handleActions_of_no_region arn backend h rest, h, List.append_nil]
    by_cases hp : s.panicked = true
    · rw [if_pos hp]
    · rw [if_neg hp]
      rfl

theorem handle_of_no_region (arn : Str) (backend : Backend)
    (h : configValue (envOf arn) "region".toList = [])
    (object : List (Str × Time)) (rest : List (List (Str × Time))) :
    handle arn backend (object :: rest)
      = { Session.init with log := [LogEntry.getObjectFailed], panicked := true } := by
  unfold handle
  rw [List.foldl_cons, record_of_no_region arn backend Session.init object h rfl,
    foldl_record_of_panicked arn backend rest _ rfl]
  rfl
theorem calls_docs (L q : Nat) (calls : List (List BulkIndexRequest))
    (reqs : List BulkIndexRequest) (hj : calls.flatten = reqs.take (q * L))
    (hm : calls.map List.length = List.replicate q L) (hle : q * L ≤ reqs.length) :
    calls.map (List.map BulkIndexRequest.doc)
      = (List.range q).map
        (fun j => ((reqs.map BulkIndexRequest.doc).drop (j * L)).take L) := by
  have h := eq_chunks L calls q hm
  rw [hj] at h
  rw [h, List.map_map]
  apply List.map_congr_left
  intro j hjq
  simp only [Function.comp]
  rw [take_drop_take L j (q * L) reqs (mul_add_le_of_lt L j q (List.mem_range.mp hjq)) hle,
    List.map_take, List.map_drop]
theorem step_no_flush (L : Int) (hL : L < 1) (backend : Backend) (s : Session)
    (inp : Str × Time) (doc : Elog) (hdoc : parseLine inp.1 = some doc)
    (hp : s.panicked = false) :
    (step L backend s inp).panicked = false ∧ (step L backend s inp).calls = s.calls ∧
      (step L backend s inp).requests = s.requests ++ [indexRequest inp.2 doc] := by
  obtain ⟨ha1, ha2, ha3⟩ := addLine_of_parsed s inp doc hdoc
  rw [hp] at ha1
  have hcmp : ¬ (((addLine s inp).requests.length : Int) = L) := by
    rw [ha3, List.length_append, List.length_singleton]
    omega
  unfold step
  rw [if_neg (by simp [hp]), if_neg (by simp [ha1])]
  simp only [hcmp, if_false, ha1, Bool.false_eq_true]
  exact ⟨trivial, ha2, ha3⟩

theorem stream_no_flush (L : Int) (hL : L < 1) (backend : Backend) :
    ∀ (lines : List (Str × Time)) (s : Session), s.panicked = false →
      ∃ seen rest, lines = seen ++ rest ∧ (∀ inp ∈ seen, (parseLine inp.1).isSome) ∧
        (stream L backend s lines).calls = s.calls ∧
        ((stream L backend s lines).panicked = false →
          rest = [] ∧ (stream L backend s lines).requests
            = s.requests ++ seen.filterMap requestOf)
  | [], s, hp => ⟨[], [], rfl, fun _ h => absurd h (List.not_mem_nil _), rfl,
      fun _ => ⟨rfl, by simp [stream]⟩⟩
  | inp :: rest0, s, hp => by
    rw [stream_cons]
    cases hdoc : parseLine inp.1 with
    | none =>
      obtain ⟨m1, m2⟩ := step_of_malformed L backend s inp hdoc
      rw [stream_of_panicked L backend _ _ m1]
      exact ⟨[], inp :: rest0, rfl, fun _ h => absurd h (List.not_mem_nil _), m2,
        fun hc => by rw [m1] at hc; exact absurd hc (by simp)⟩
    | some doc =>
      obtain ⟨g1, g2, g3⟩ := step_no_flush L hL backend s inp doc hdoc hp
      obtain ⟨seen, rest, e, hall, hc, hrun⟩ :=
        stream_no_flush L hL backend rest0 (step L backend s inp) g1
      have hr : requestOf inp = some (indexRequest inp.2 doc) := by simp [requestOf, hdoc]
      refine ⟨inp :: seen, rest, by rw [e]; rfl, ?_, by rw [hc, g2], ?_⟩
      · intro x hx
        rcases List.mem_cons.mp hx with hx | hx
        · rw [hx, hdoc]; rfl
        · exact hall x hx
      · intro hs
        obtain ⟨h1, h2⟩ := hrun hs
        refine ⟨h1, ?_⟩
        rw [h2, g3, List.filterMap_cons_some hr, List.append_assoc]
        rfl

/-- The calls of a session for every limit, whatever the backend answers:
the first `n` chunks of `chunkSize` lines, each with the requests of its
lines in order. -/
theorem session_chunks_all (L : Int) (backend : Backend) (s0 : Session)
    (lines : List (Str × Time)) :
    ∃ n, n * chunkSize L lines.length < lines.length + chunkSize L lines.length ∧
      (session L backend s0 lines).calls = s0.calls ++ (List.range n).map
        (fun j => ((lines.drop (j * chunkSize L lines.length)).take
          (chunkSize L lines.length)).filterMap requestOf) ∧
      (∀ j, j < n → ∀ inp ∈ (lines.drop (j * chunkSize L lines.length)).take
          (chunkSize L lines.length), (parseLine inp.1).isSome) ∧
      ((session L backend s0 lines).panicked = false →
        lines.length ≤ n * chunkSize L lines.length) := by
  by_cases h0 : s0.panicked = true
  · have hs : session L backend s0 lines = s0 := by simp [session, h0]
    refine ⟨0, ?_, by rw [hs]; simp, fun j hj => absurd hj (Nat.not_lt_zero j), ?_⟩
    · have : 1 ≤ chunkSize L lines.length := by
        unfold chunkSize
        split <;> omega
      omega
    · intro hc; rw [hs, h0] at hc; exact absurd hc (by simp)
  · have h0f : s0.panicked = false := by simpa using h0
    by_cases hL : 1 ≤ L
    · have hK : chunkSize L lines.length = L.toNat := by simp [chunkSize, hL]
      have hLn : ((L.toNat : Nat) : Int) = L := Int.toNat_of_nonneg (by omega)
      rw [hK]
      have h := session_chunks L.toNat (by omega) backend s0 h0f lines
      rw [hLn] at h
      exact h
    · have hK : chunkSize L lines.length = lines.length + 1 := by simp [chunkSize, hL]
      rw [hK]
      obtain ⟨seen, rest, e, hall, hc, hrun⟩ := stream_no_flush L (by omega) backend lines
        { s0 with requests := [], num := 1 } h0f
      by_cases hs : (stream L backend { s0 with requests := [], num := 1 } lines).panicked = true
      · obtain ⟨g1, g2⟩ := session_of_stream_panicked L backend s0 lines hs
        refine ⟨0, by omega, by rw [g2, hc]; simp, fun j hj => absurd hj (Nat.not_lt_zero j), ?_⟩
        intro hc2; rw [g1] at hc2; exact absurd hc2 (by simp)
      · have hs2 : (stream L backend { s0 with requests := [], num := 1 } lines).panicked
            = false := by simpa using hs
        obtain ⟨hr0, hreq⟩ := hrun hs2
        subst hr0
        rw [List.append_nil] at e
        subst e
        obtain ⟨g1, -⟩ := session_calls L backend s0 lines h0f hs2
        have hreq2 : (stream L backend { s0 with requests := [], num := 1 } lines).requests
            = lines.filterMap requestOf := by rw [hreq]; rfl
        have hreqlen : (stream L backend { s0 with requests := [], num := 1 }
            lines).requests.length = lines.length := by
          rw [hreq2, length_filterMap_of_isSome requestOf _
            (fun x hx => requestOf_isSome x (hall x hx))]
        by_cases hpos : lines.length > 0
        · refine ⟨1, by omega, ?_, ?_, fun _ => by omega⟩
          · rw [g1, if_pos (by rw [hreqlen]; exact hpos), hc, hreq2]
            have hr1 : List.range 1 = [0] := rfl
            rw [hr1]
            simp only [List.map_cons, List.map_nil, Nat.zero_mul, List.drop_zero]
            rw [List.take_of_length_le (by omega)]
          · intro j _ inp hi
            exact hall inp (List.mem_of_mem_drop (List.mem_of_mem_take hi))
        · refine ⟨0, by omega, ?_, fun j hj => absurd hj (Nat.not_lt_zero j), fun _ => by omega⟩
          rw [g1, if_neg (by rw [hreqlen]; exact hpos), hc]
          simp
/-! ## The claims -/

/-- C1: for every line in the wire format whose tokens other than the user
agent have no space and no double quote and whose user agent has no double
quote, the line parser returns a document (no index is out of range) whose
`@log_name` is `elb_access_log` and whose other fields are exactly the
corresponding tokens, the quotes stripped. -/
theorem parseLine_wire_format (w : WireLine) (h : w.WellFormed) :
    ∃ doc, parseLine w.render = some doc ∧
      doc.log_name = "elb_access_log".toList ∧ doc.elb = w.elb ∧ doc.client = w.client ∧
      doc.backend = w.backend ∧ doc.requestprocessingtime = w.req_proc ∧
      doc.backendprocessingtime = w.backend_proc ∧ doc.responseprocessingtime = w.resp_proc ∧
      doc.elbstatuscode = w.elb_status ∧ doc.backendstatuscode = w.backend_status ∧
      doc.receivedbytes = w.recv_bytes ∧ doc.sentbytes = w.sent_bytes ∧
      doc.requesttype = w.method ∧ doc.requesturl = w.url ∧ doc.requestprotocol = w.protocol ∧
      doc.useragent = w.user_agent ∧ doc.sslcipher = w.cipher ∧
      doc.sslprotocol = w.protocol_version :=
  ⟨_, parseLine_render w h, rfl, rfl, rfl, rfl, rfl, rfl, rfl, rfl, rfl, rfl, rfl, rfl, rfl,
    rfl, rfl, rfl, rfl⟩

set_option maxRecDepth 100000 in
/-- C1, witness: the example line of the specification is in the wire
format and parses to `elb = my-elb`, `client = 192.168.131.39:2817`,
`elbstatuscode = 200`, `requesttype = GET`, `useragent = curl/7.38.0`. -/
theorem parseLine_wire_format_witness :
    exampleWire.WellFormed ∧ exampleWire.render = exampleLine ∧
    ∃ doc, parseLine exampleLine = some doc ∧ doc.elb = "my-elb".toList ∧
      doc.client = "192.168.131.39:2817".toList ∧ doc.elbstatuscode = "200".toList ∧
      doc.requesttype = "GET".toList ∧ doc.useragent = "curl/7.38.0".toList := by
  have hw : exampleWire.WellFormed := by decide
  have hr : exampleWire.render = exampleLine := by decide
  obtain ⟨doc, hd, -, h2, h3, -, -, -, -, h8, -, -, -, h12, -, -, h15, -, -⟩ :=
    parseLine_wire_format exampleWire hw
  rw [hr] at hd
  exact ⟨hw, hr, doc, hd, h2, h3, h8, h12, h15⟩

/-- C2: with a bulk limit `L ≥ 1`, well-formed lines and a backend whose every
call succeeds, the bulk calls carry the consecutive chunks of the sequence of
parsed documents in line order. After each prefix of `k` lines the `k / L`
full chunks of the documents of the prefix have been submitted, the `j`-th
call carrying documents `j * L` to `j * L + L - 1`, and the remaining `k % L`
documents are pending (none when `L` divides `k`: the call is made as soon as
the batch is full and leaves it empty); at the end of the session there are
`N / L` calls with the full chunks followed by one call with the remaining
`N % L` documents when that is positive, the documents of the calls
concatenate to the whole sequence, and nothing is pending. -/
theorem batches_are_consecutive_chunks (L : Nat) (hL : 1 ≤ L) (backend : Backend)
    (hb : ∀ k reqs, (backend k reqs).isSome) (lines : List (Str × Time))
    (hl : ∀ inp ∈ lines, (parseLine inp.1).isSome) :
    (∀ k, k ≤ lines.length →
      (stream L backend Session.init (lines.take k)).panicked = false ∧
      (stream L backend Session.init (lines.take k)).calls.map (List.map BulkIndexRequest.doc)
        = (List.range (k / L)).map
          (fun j => ((docsOf (lines.take k)).drop (j * L)).take L) ∧
      (stream L backend Session.init (lines.take k)).calls.flatten.map BulkIndexRequest.doc
        = (docsOf (lines.take k)).take (k / L * L) ∧
      (stream L backend Session.init (lines.take k)).calls.map List.length
        = List.replicate (k / L) L ∧
      (stream L backend Session.init (lines.take k)).requests.map BulkIndexRequest.doc
        = (docsOf (lines.take k)).drop (k / L * L) ∧
      (stream L backend Session.init (lines.take k)).requests.length = k % L) ∧
    (session L backend Session.init lines).panicked = false ∧
    (docsOf lines).length = lines.length ∧
    (session L backend Session.init lines).calls.map (List.map BulkIndexRequest.doc)
      = (List.range (lines.length / L)).map (fun j => ((docsOf lines).drop (j * L)).take L)
        ++ (if lines.length % L > 0 then [(docsOf lines).drop (lines.length / L * L)]
            else []) ∧
    (session L backend Session.init lines).calls.flatten.map BulkIndexRequest.doc
      = docsOf lines ∧
    (session L backend Session.init lines).calls.map List.length
      = List.replicate (lines.length / L) L
        ++ (if lines.length % L > 0 then [lines.length % L] else []) ∧
    (session L backend Session.init lines).requests = [] := by
  have hinit : BatchInv L { Session.init with requests := [], num := 1 } [] :=
    BatchInv_init L hL Session.init rfl rfl
  have hinit2 : ({ Session.init with requests := [], num := 1 } : Session) = Session.init := rfl
  rw [hinit2] at hinit
  constructor
  · intro k hk
    have hlk : ∀ inp ∈ lines.take k, (parseLine inp.1).isSome :=
      fun inp hi => hl inp (List.mem_of_mem_take hi)
    have hinv := BatchInv_stream L backend hb (lines.take k) Session.init [] hlk hinit
    rw [List.nil_append] at hinv
    obtain ⟨hp, q, r, hlen, hr, hj, hm, hreq⟩ := hinv
    have hlen2 : ((lines.take k).filterMap requestOf).length = k := by
      rw [length_filterMap_requestOf _ hlk, List.length_take]; omega
    obtain ⟨hq, hrm⟩ := div_mod_of_eq k L q r (by omega) hr
    rw [hq, hrm]
    refine ⟨hp, ?_, ?_, hm, ?_, ?_⟩
    · rw [calls_docs L q _ _ hj hm (by omega), doc_requestOf]
    · rw [hj, List.map_take, doc_requestOf]
    · rw [hreq, List.map_drop, doc_requestOf]
    · rw [hreq, List.length_drop]
      omega
  · have hinv := BatchInv_stream L backend hb lines Session.init [] hl hinit
    rw [List.nil_append] at hinv
    obtain ⟨hp, q, r, hlen, hr, hj, hm, hreq⟩ := hinv
    have hlen2 := length_filterMap_requestOf lines hl
    obtain ⟨hq, hrm⟩ := div_mod_of_eq lines.length L q r (by omega) hr
    obtain ⟨g1, g2, g3, -⟩ := session_of_stream_ok L backend hb Session.init lines rfl hp
    have g3b : (session L backend Session.init lines).calls
        = (stream L backend Session.init lines).calls
          ++ (if (stream L backend Session.init lines).requests.length > 0
              then [(stream L backend Session.init lines).requests] else []) := g3
    have hqL : q * L ≤ (lines.filterMap requestOf).length := by omega
    have hreqlen : (stream L backend Session.init lines).requests.length = r := by
      rw [hreq, List.length_drop]; omega
    have hdl : (docsOf lines).length = lines.length := by
      rw [← doc_requestOf, List.length_map, hlen2]
    rw [hq, hrm, g3b, hreqlen]
    refine ⟨g1, hdl, ?_, ?_, ?_, g2⟩
    · rw [List.map_append, calls_docs L q _ _ hj hm hqL, doc_requestOf]
      by_cases hr0 : r > 0
      · simp only [hr0, if_true, List.map_cons, List.map_nil, hreq, List.map_drop,
          doc_requestOf]
      · simp only [hr0, if_false, List.map_nil]
    · rw [List.flatten_append, hj, List.map_append, List.map_take, doc_requestOf]
      by_cases hr0 : r > 0
      · simp only [hr0, if_true, List.flatten_cons, List.flatten_nil, List.append_nil, hreq,
          List.map_drop, doc_requestOf]
        exact List.take_append_drop _ _
      · have hz : r = 0 := by omega
        simp only [hr0, if_false, List.flatten_nil, List.map_nil, List.append_nil]
        rw [List.take_of_length_le (by omega)]
    · rw [List.map_append, hm]
      by_cases hr0 : r > 0
      · simp [hr0, hreqlen]
      · simp [hr0]

set_option maxRecDepth 100000 in
/-- C2, witness: with limit 3, three lines give one call with the three
documents, made when the third line has been added and leaving the batch
empty; with limit 5, two lines give no call before the end of the stream and
one call with the two documents then; no line gives no call. -/
theorem batches_are_consecutive_chunks_witness :
    docsOf (List.replicate 3 (exampleLine, noon)) = [exampleDoc, exampleDoc, exampleDoc] ∧
    (session ((3 : Nat) : Int) createAll Session.init
      (List.replicate 3 (exampleLine, noon))).calls.map (List.map BulkIndexRequest.doc)
      = [[exampleDoc, exampleDoc, exampleDoc]] ∧
    (stream ((3 : Nat) : Int) createAll Session.init
      (List.replicate 3 (exampleLine, noon))).calls.map (List.map BulkIndexRequest.doc)
      = [[exampleDoc, exampleDoc, exampleDoc]] ∧
    (stream ((3 : Nat) : Int) createAll Session.init
      (List.replicate 3 (exampleLine, noon))).requests = [] ∧
    (stream ((5 : Nat) : Int) createAll Session.init
      (List.replicate 2 (exampleLine, noon))).calls = [] ∧
    (session ((5 : Nat) : Int) createAll Session.init
      (List.replicate 2 (exampleLine, noon))).calls.map (List.map BulkIndexRequest.doc)
      = [[exampleDoc, exampleDoc]] ∧
    (session ((5 : Nat) : Int) createAll Session.init []).calls = [] := by
  have h3 := batches_are_consecutive_chunks 3 (by decide) createAll (fun _ _ => rfl)
    (List.replicate 3 (exampleLine, noon)) (by decide)
  have h5 := batches_are_consecutive_chunks 5 (by decide) createAll (fun _ _ => rfl)
    (List.replicate 2 (exampleLine, noon)) (by decide)
  have h0 := batches_are_consecutive_chunks 5 (by decide) createAll (fun _ _ => rfl)
    [] (by decide)
  have d3 : docsOf (List.replicate 3 (exampleLine, noon))
      = [exampleDoc, exampleDoc, exampleDoc] := by decide
  have d2 : docsOf (List.replicate 2 (exampleLine, noon)) = [exampleDoc, exampleDoc] := by
    decide
  obtain ⟨-, a2, -, -, -, a6⟩ := h3.1 3 (by decide)
  obtain ⟨-, -, -, b4, -, -⟩ := h5.1 2 (by decide)
  refine ⟨d3, ?_, ?_, ?_, ?_, ?_, ?_⟩
  · rw [h3.2.2.2.1, d3]; decide
  · have e : List.take 3 (List.replicate 3 (exampleLine, noon))
        = List.replicate 3 (exampleLine, noon) := by decide
    rw [e] at a2
    rw [a2, d3]; decide
  · exact List.length_eq_zero.mp (by simpa using a6)
  · have hb : List.map List.length (stream ((5 : Nat) : Int) createAll Session.init
        (List.replicate 2 (exampleLine, noon))).calls = [] := by simpa using b4
    exact List.map_eq_nil_iff.mp hb
  · rw [h5.2.2.2.1, d2]; decide
  · have hc : List.map List.length (session ((5 : Nat) : Int) createAll Session.init []).calls
        = [] := by simpa using h0.2.2.2.2.2.1
    exact List.map_eq_nil_iff.mp hc

/-- C3, as amended: a line that lacks the minimum expected fields is not
skipped. The parser fails on it with an index out of range, the session is
aborted at that line, and the bulk calls of the session are those made for
the lines before it: neither the line nor any later line is submitted. -/
theorem malformed_line_aborts_session (L : Int) (backend : Backend) (s0 : Session)
    (pre post : List (Str × Time)) (bad : Str × Time) (h : Malformed bad.1) :
    parseLine bad.1 = none ∧
    (session L backend s0 (pre ++ bad :: post)).panicked = true ∧
    (session L backend s0 (pre ++ bad :: post)).calls
      = (stream L backend { s0 with requests := [], num := 1 } pre).calls := by
  have hn := parseLine_of_malformed bad.1 h
  have hstep := step_of_malformed L backend
    (stream L backend { s0 with requests := [], num := 1 } pre) bad hn
  have hst : stream L backend { s0 with requests := [], num := 1 } (pre ++ bad :: post)
      = step L backend (stream L backend { s0 with requests := [], num := 1 } pre) bad := by
    rw [stream_append, stream_cons, stream_of_panicked _ _ _ _ hstep.1]
  have hs := session_of_stream_panicked L backend s0 (pre ++ bad :: post)
    (by rw [hst]; exact hstep.1)
  refine ⟨hn, hs.1, ?_⟩
  rw [hs.2, hst, hstep.2]

set_option maxRecDepth 100000 in
/-- C3, witness: the line `abc` between two example lines. -/
theorem malformed_line_aborts_session_witness :
    Malformed "abc".toList ∧ parseLine "abc".toList = none ∧
    (session 5 createAll Session.init
      ([(exampleLine, noon)] ++ ("abc".toList, noon) :: [(exampleLine, noon)])).panicked = true ∧
    (session 5 createAll Session.init
      ([(exampleLine, noon)] ++ ("abc".toList, noon) :: [(exampleLine, noon)])).calls = [] := by
  have hm : Malformed "abc".toList := Or.inl (by decide)
  obtain ⟨h1, h2, h3⟩ := malformed_line_aborts_session 5 createAll Session.init
    [(exampleLine, noon)] [(exampleLine, noon)] ("abc".toList, noon) hm
  refine ⟨hm, h1, h2, ?_⟩
  rw [h3]
  decide

set_option maxRecDepth 100000 in
/-- C3, counterexample: with limit 5, the stream of the example line, the
line `abc` and the example line again ends in a panic with no bulk call,
while without the line `abc` one call submits both documents. -/
theorem malformed_line_not_skipped :
    Malformed "abc".toList ∧
    (session 5 createAll Session.init
      [(exampleLine, noon), ("abc".toList, noon), (exampleLine, noon)]).panicked = true ∧
    (session 5 createAll Session.init
      [(exampleLine, noon), ("abc".toList, noon), (exampleLine, noon)]).calls = [] ∧
    (session 5 createAll Session.init [(exampleLine, noon), (exampleLine, noon)]).calls
      = [[indexRequest noon exampleDoc, indexRequest noon exampleDoc]] :=
  ⟨Or.inl (by decide), by decide, by decide, by decide⟩

set_option maxRecDepth 100000 in
/-- C4, at the failing input: limit 5, five example lines, and a response
with four `create` results and one failed result. The loop of lines 296-298
runs over the slice `created`: it writes four records, one for each created
document (status 201), and none for the document that was not created. -/
theorem created_items_are_logged :
    (session 5 createAllButLast Session.init (List.replicate 5 (exampleLine, noon))).log
      = [LogEntry.notCreated 1, LogEntry.item 0 [] 201, LogEntry.item 1 [] 201,
         LogEntry.item 2 [] 201, LogEntry.item 3 [] 201, LogEntry.linesProcessed 6] := by
  decide

/-- C5, as amended: for every line in the wire format whose first field
`time.Parse` rejects, the parser still returns a document; its `@timestamp` is the zero
time, `0001-01-01T00:00:00+0000`, and it equals, in every field other than
`@timestamp`, the document of the same line with any other first field (a
valid timestamp in particular). The loop logs the parse error, adds the
request of the document to the batch and does not panic. -/
theorem invalid_timestamp_gives_zero_time (w : WireLine) (h : w.WellFormed)
    (ht : timeParse w.timestamp = none) :
    ∃ doc, parseLine w.render = some doc ∧
      doc.timestamp = "0001-01-01T00:00:00+0000".toList ∧
      (∀ ts, ' ' ∉ ts → '"' ∉ ts →
        ∃ doc', parseLine ({ w with timestamp := ts } : WireLine).render = some doc' ∧
          doc = { doc' with timestamp := doc.timestamp }) ∧
      (∀ (s : Session) (now : Time), s.panicked = false →
        (addLine s (w.render, now)).panicked = false ∧
        (addLine s (w.render, now)).requests = s.requests ++ [indexRequest now doc] ∧
        (addLine s (w.render, now)).log = s.log ++ [LogEntry.dateError]) := by
  have hparse := parseLine_render w h
  rw [ht] at hparse
  have hz : (Option.getD (none : Option Time) Time.zero).UTC.FormatTimestamp
      = "0001-01-01T00:00:00+0000".toList := by decide
  refine ⟨_, hparse, hz, ?_, ?_⟩
  · intro ts h1 h2
    exact ⟨_, parseLine_render _ (WellFormed_timestamp w h ts h1 h2), rfl⟩
  · intro s now hs
    have hle := (lineTime_render w h).2
    rw [ht] at hle
    simp [addLine, hparse, hle, hs]

set_option maxRecDepth 100000 in
/-- C5, witness: the example line with the first field `not-a-date`; fields
with an offset hour of 25, an offset minute of 61 or a sign in place of a
digit of the offset are rejected as well. -/
theorem invalid_timestamp_gives_zero_time_witness :
    timeParse "not-a-date".toList = none ∧
    timeParse "2015-05-13T23:39:43+25:00".toList = none ∧
    timeParse "2015-05-13T23:39:43+00:61".toList = none ∧
    timeParse "2015-05-13T23:39:43+-1:30".toList = none ∧
    ∃ doc, parseLine ({ exampleWire with timestamp := "not-a-date".toList } : WireLine).render
        = some doc ∧
      doc.timestamp = "0001-01-01T00:00:00+0000".toList ∧
      doc = { exampleDoc with timestamp := doc.timestamp } := by
  have ht : timeParse "not-a-date".toList = none := by decide
  obtain ⟨doc, h1, h2, h3, -⟩ := invalid_timestamp_gives_zero_time
    ({ exampleWire with timestamp := "not-a-date".toList } : WireLine) (by decide) ht
  obtain ⟨doc', h4, h5⟩ := h3 exampleWire.timestamp (by decide) (by decide)
  have h6 : parseLine exampleWire.render = some exampleDoc := by decide
  have h7 : doc' = exampleDoc := by
    have : parseLine exampleWire.render = some doc' := h4
    rw [h6] at this
    exact (Option.some.inj this).symm
  exact ⟨ht, by decide, by decide, by decide, doc, h1, h2, by rw [← h7]; exact h5⟩

set_option maxRecDepth 100000 in
/-- C5, counterexample: `2015-05-13T3:39:43Z`, with a one-digit hour, is not
a valid RFC 3339 timestamp, and neither is `2015-05-13T23:39:43,5Z`, with a
comma before the fraction; `time.Parse` accepts both. On the example line
with either as its first field the parser logs no error and the `@timestamp`
of the document is that time, not the zero time. -/
theorem one_digit_hour_is_parsed :
    ¬ IsRfc3339 "2015-05-13T3:39:43Z".toList ∧
    ¬ IsRfc3339 "2015-05-13T23:39:43,5Z".toList ∧
    ({ exampleWire with timestamp := "2015-05-13T3:39:43Z".toList } : WireLine).WellFormed ∧
    ({ exampleWire with timestamp := "2015-05-13T23:39:43,5Z".toList } : WireLine).WellFormed ∧
    parseLine ({ exampleWire with timestamp := "2015-05-13T3:39:43Z".toList } : WireLine).render
      = some { exampleDoc with timestamp := "2015-05-13T03:39:43+0000".toList } ∧
    lineTimeError
      ({ exampleWire with timestamp := "2015-05-13T3:39:43Z".toList } : WireLine).render
      = false ∧
    parseLine
        ({ exampleWire with timestamp := "2015-05-13T23:39:43,5Z".toList } : WireLine).render
      = some { exampleDoc with timestamp := "2015-05-13T23:39:43+0000".toList } ∧
    lineTimeError
      ({ exampleWire with timestamp := "2015-05-13T23:39:43,5Z".toList } : WireLine).render
      = false := by
  refine ⟨?_, ?_, by decide, by decide, by decide, by decide, by decide, by decide⟩
  · rintro ⟨r, tee, zed, -, -, -, h⟩
    have h13 := congrArg (fun l => l[13]?) h
    have e : ("2015-05-13T3:39:43Z".toList)[13]? = some '3' := by decide
    simp only [e] at h13
    simp [Rfc3339.renderAs, four, two] at h13
  · rintro ⟨r, tee, zed, -, hz, hg, h⟩
    have h19 := congrArg (fun l => l[19]?) h
    have e : ("2015-05-13T23:39:43,5Z".toList)[19]? = some ',' := by decide
    simp only [e] at h19
    by_cases hf : r.frac = []
    · cases hzone : r.zone with
      | Z =>
        rcases hz with hz | hz <;>
          simp [Rfc3339.renderAs, four, two, fracRender, hf, hzone, hz] at h19
      | plus a b => simp [Rfc3339.renderAs, four, two, fracRender, hf, hzone, Zone.render] at h19
      | minus a b => simp [Rfc3339.renderAs, four, two, fracRender, hf, hzone, Zone.render] at h19
    · simp [Rfc3339.renderAs, four, two, fracRender, hf] at h19

/-- C6, as amended: on a line in the wire format, `@timestamp` is the instant
of the first field in UTC, in whole seconds. For whatever `time.Parse` accepts as
the time `t`, the field is the text of a civil time in UTC whose second is
the second of `t` (the nanoseconds are dropped), with the suffix `+0000`; it
has the form `YYYY-MM-DDTHH:MM:SS+0000` when the year in UTC is within 0 to
9999. For the text of an RFC 3339 timestamp with the letters `T` and `Z` in
upper case and a second of at most 59, with or without a fraction and with
`Z` or any offset, `time.Parse` accepts it and the civil time rendered
denotes its instant: its own civil time less its offset. -/
theorem timestamp_normalised_to_utc (w : WireLine) (hw : w.WellFormed) :
    (∀ t, timeParse w.timestamp = some t →
      ∃ doc y m d hh mi ss, parseLine w.render = some doc ∧ CivilTime y m d hh mi ss ∧
        civilSeconds y m d hh mi ss = t.sec ∧ doc.timestamp = utcText y m d hh mi ss ∧
        (0 ≤ y → y ≤ 9999 → doc.timestamp
          = utcTextFixed y.toNat m.toNat d.toNat hh.toNat mi.toNat ss.toNat)) ∧
    (∀ r : Rfc3339, r.Valid → w.timestamp = r.render →
      ∃ doc y m d hh mi ss, parseLine w.render = some doc ∧ CivilTime y m d hh mi ss ∧
        civilSeconds y m d hh mi ss = r.instant ∧ doc.timestamp = utcText y m d hh mi ss ∧
        (0 ≤ y → y ≤ 9999 → doc.timestamp
          = utcTextFixed y.toNat m.toNat d.toNat hh.toNat mi.toNat ss.toNat)) := by
  constructor
  · intro t ht
    exact parseLine_timestamp w hw t ht
  · intro r hr hts
    obtain ⟨ns, -, -, hparse⟩ := timeParse_render r hr
    rw [← hts] at hparse
    exact parseLine_timestamp w hw _ hparse

set_option maxRecDepth 100000 in
/-- C6, witness: the first field `2015-05-13T23:39:43.945958Z` of the
example line gives `2015-05-13T23:39:43+0000`. -/
theorem timestamp_normalised_to_utc_witness :
    exampleWire.WellFormed ∧ exampleTimestamp.Valid ∧
    exampleTimestamp.render = "2015-05-13T23:39:43.945958Z".toList ∧
    exampleWire.timestamp = exampleTimestamp.render ∧
    ∃ doc, parseLine exampleLine = some doc ∧
      doc.timestamp = "2015-05-13T23:39:43+0000".toList ∧
      ∃ y m d hh mi ss, CivilTime y m d hh mi ss ∧
        civilSeconds y m d hh mi ss = exampleTimestamp.instant ∧
        doc.timestamp = utcText y m d hh mi ss := by
  have hw : exampleWire.WellFormed := by decide
  have hv : exampleTimestamp.Valid := by decide
  have hr : exampleTimestamp.render = "2015-05-13T23:39:43.945958Z".toList := by decide
  have hts : exampleWire.timestamp = exampleTimestamp.render := by decide
  obtain ⟨doc, y, m, d, hh, mi, ss, h1, h2, h3, h4, -⟩ :=
    (timestamp_normalised_to_utc exampleWire hw).2 exampleTimestamp hv hts
  have h5 : parseLine exampleWire.render = some exampleDoc := by decide
  have h6 : doc = exampleDoc := by
    rw [h5] at h1
    exact (Option.some.inj h1).symm
  have h7 : exampleWire.render = exampleLine := by decide
  refine ⟨hw, hv, hr, hts, doc, by rw [← h7]; exact h1, ?_, y, m, d, hh, mi, ss, h2, h3, h4⟩
  rw [h6]
  decide

set_option maxRecDepth 100000 in
/-- C6, counterexample: four valid RFC 3339 timestamps for which the
`@timestamp` of the example line is not the instant in the form
`YYYY-MM-DDTHH:MM:SS+0000`. `0000-01-01T00:00:00+01:00` falls in the year
before 0000 in UTC and gives `-0001-12-31T23:00:00+0000`;
`9999-12-31T23:59:59-00:01` falls in the year after 9999 and gives
`10000-01-01T00:00:59+0000`; `time.Parse` rejects the leap second
`2016-12-31T23:59:60Z` and the lower-case `2015-05-13t23:39:43z`, and both
give the zero time `0001-01-01T00:00:00+0000`. -/
theorem timestamp_outside_fixed_form :
    yearZeroTimestamp.Valid ∧ IsRfc3339 yearZeroTimestamp.render ∧
    yearZeroTimestamp.render = "0000-01-01T00:00:00+01:00".toList ∧
    parseLine ({ exampleWire with timestamp := yearZeroTimestamp.render } : WireLine).render
      = some { exampleDoc with timestamp := "-0001-12-31T23:00:00+0000".toList } ∧
    (∀ y m d hh mi ss : Nat,
      "-0001-12-31T23:00:00+0000".toList ≠ utcTextFixed y m d hh mi ss) ∧
    lastYearTimestamp.Valid ∧ IsRfc3339 lastYearTimestamp.render ∧
    lastYearTimestamp.render = "9999-12-31T23:59:59-00:01".toList ∧
    parseLine ({ exampleWire with timestamp := lastYearTimestamp.render } : WireLine).render
      = some { exampleDoc with timestamp := "10000-01-01T00:00:59+0000".toList } ∧
    (∀ y m d hh mi ss : Nat,
      "10000-01-01T00:00:59+0000".toList ≠ utcTextFixed y m d hh mi ss) ∧
    IsRfc3339 "2016-12-31T23:59:60Z".toList ∧
    parseLine
        ({ exampleWire with timestamp := "2016-12-31T23:59:60Z".toList } : WireLine).render
      = some { exampleDoc with timestamp := "0001-01-01T00:00:00+0000".toList } ∧
    IsRfc3339 "2015-05-13t23:39:43z".toList ∧
    parseLine
        ({ exampleWire with timestamp := "2015-05-13t23:39:43z".toList } : WireLine).render
      = some { exampleDoc with timestamp := "0001-01-01T00:00:00+0000".toList } := by
  have hlen : ∀ (s : Str), s.length = 25 → ∀ y m d hh mi ss : Nat,
      s ≠ utcTextFixed y m d hh mi ss := by
    intro s hs y m d hh mi ss he
    have h2 := congrArg List.length he
    rw [hs] at h2
    simp [utcTextFixed, four, two] at h2
  refine ⟨by decide, ⟨yearZeroTimestamp, 'T', 'Z', Or.inl rfl, Or.inl rfl, by decide, by decide⟩,
    by decide, by decide, hlen _ (by decide), by decide,
    ⟨lastYearTimestamp, 'T', 'Z', Or.inl rfl, Or.inl rfl, by decide, by decide⟩,
    by decide, by decide, hlen _ (by decide),
    ⟨leapSecondTimestamp, 'T', 'Z', Or.inl rfl, Or.inl rfl, by decide, by decide⟩, by decide,
    ⟨plainTimestamp, 't', 'z', Or.inr rfl, Or.inr rfl, by decide, by decide⟩, by decide⟩

set_option maxRecDepth 100000 in
/-- C7, at the failing input: when the bulk call fails, the error is logged
and `bulkResponse.Created()` is called on the nil response, which panics. With
limit 1 and two lines, the second line is never processed and its document
never submitted; in `handle`, with two records of one line each, the second
record is never processed and no line count is logged. -/
theorem failed_bulk_call_aborts :
    session 1 failAll Session.init [(exampleLine, noon), (exampleLine, noon)]
      = { requests := [indexRequest noon exampleDoc], num := 1,
          calls := [[indexRequest noon exampleDoc]], log := [LogEntry.bulkError],
          panicked := true } ∧
    handle liveArn failAll [[(exampleLine, noon)], [(exampleLine, noon)]]
      = { requests := [indexRequest noon exampleDoc], num := 2,
          calls := [[indexRequest noon exampleDoc]], log := [LogEntry.bulkError],
          panicked := true } :=
  ⟨by decide, by decide⟩

/-- C8: at every evaluation of a flush decision of `handle`, after a line
has been added (line 283) and at the end of the stream of a record
(line 306), the number of accumulated requests does not exceed the bulk limit
of the invoked environment, for every backend and every event. An environment
with a configuration entry has the limit 6000; one without has the limit 0
and the empty region, the object of the first record is not fetched and
`log.Fatal` ends the process before any line is read, so that no flush
decision is evaluated and no bulk call made. The bound holds as well in the
loop over one object for every limit of at least one. -/
theorem flush_decisions_within_limit (arn : Str) (backend : Backend)
    (records : List (List (Str × Time))) :
    (∀ a ∈ handleActions arn backend Session.init records, (a : Int) ≤ bulkLimit arn) ∧
    ((bulkLimit arn = 6000 ∧ configValue (envOf arn) "region".toList = "eu-west-1".toList) ∨
      (bulkLimit arn = 0 ∧ configValue (envOf arn) "region".toList = [] ∧
        handleActions arn backend Session.init records = [] ∧
        (handle arn backend records).calls = [] ∧
        (records ≠ [] → handle arn backend records
          = { Session.init with log := [LogEntry.getObjectFailed], panicked := true }))) ∧
    (∀ (L : Int) (s0 : Session) (lines : List (Str × Time)), 1 ≤ L →
      ∀ a ∈ sessionActions L backend s0 lines, (a : Int) ≤ L) := by
  refine ⟨handleActions_bounded arn backend records Session.init, ?_,
    fun L s0 lines hL => sessionActions_bounded L hL backend s0 lines⟩
  rcases bulkLimit_cases arn with h | ⟨h1, h2⟩
  · exact Or.inl h
  · refine Or.inr ⟨h1, h2, handleActions_of_no_region arn backend h2 records Session.init, ?_, ?_⟩
    · cases records with
      | nil => rfl
      | cons o rest => rw [handle_of_no_region arn backend h2 o rest]; rfl
    · intro hne
      cases records with
      | nil => exact absurd rfl hne
      | cons o rest => exact handle_of_no_region arn backend h2 o rest

set_option maxRecDepth 100000 in
/-- C8, witness: under the alias `LIVE` a record of two example lines has
the flush decisions evaluated with 1, 2 and 2 requests, within the limit
6000; under an ARN without an alias, an environment without a configuration
entry, no flush decision is evaluated. -/
theorem flush_decisions_within_limit_witness :
    handleActions liveArn createAll Session.init [[(exampleLine, noon), (exampleLine, noon)]]
      = [1, 2, 2] ∧
    ((2 : Nat) : Int) ≤ bulkLimit liveArn ∧ bulkLimit liveArn = 6000 ∧
    envOf plainArn = "elb-logs".toList ∧ bulkLimit plainArn = 0 ∧
    handleActions plainArn createAll Session.init [[(exampleLine, noon), (exampleLine, noon)]]
      = [] ∧
    handle plainArn createAll [[(exampleLine, noon), (exampleLine, noon)]]
      = { Session.init with log := [LogEntry.getObjectFailed], panicked := true } := by
  have h := flush_decisions_within_limit liveArn createAll
    [[(exampleLine, noon), (exampleLine, noon)]]
  exact ⟨by decide, h.1 2 (by decide), by decide, by decide, by decide, by decide, by decide⟩

/-- C9, as amended: the index name of a request is fixed when its line is
parsed, not when its batch is submitted. For every bulk limit and whatever
the backend answers, the `j`-th call of a session consists, in order, of the
requests of lines `j * K` to `j * K + K - 1` of the stream, `K` being the
number of lines per call (`chunkSize`); each request carries the document of
its own line, the type `elblog`, and the index `logstash-YYYY.MM.DD` of the
UTC calendar date of the clock reading taken when that line was parsed; the
calls cover all lines when the session runs to its end. Hence all requests
of a call target one and the same index when the readings of the lines of
that call fall on one UTC date. -/
theorem index_name_fixed_at_parse (L : Int) (backend : Backend) (s0 : Session)
    (lines : List (Str × Time)) :
    (∃ n, n * chunkSize L lines.length < lines.length + chunkSize L lines.length ∧
      (session L backend s0 lines).calls = s0.calls ++ (List.range n).map
        (fun j => ((lines.drop (j * chunkSize L lines.length)).take
          (chunkSize L lines.length)).filterMap lineRequest) ∧
      (∀ j, j < n → ∀ inp ∈ (lines.drop (j * chunkSize L lines.length)).take
          (chunkSize L lines.length), (parseLine inp.1).isSome) ∧
      ((session L backend s0 lines).panicked = false →
        lines.length ≤ n * chunkSize L lines.length)) ∧
    (∀ j i batch r, (session L backend s0 lines).calls[s0.calls.length + j]? = some batch →
      batch[i]? = some r →
      i < chunkSize L lines.length ∧
      ∃ inp doc, lines[j * chunkSize L lines.length + i]? = some inp ∧
        parseLine inp.1 = some doc ∧
        r = { index := "logstash-".toList ++ inp.2.UTC.FormatDay, typ := "elblog".toList,
              doc := doc }) ∧
    (∀ j batch day, (session L backend s0 lines).calls[s0.calls.length + j]? = some batch →
      (∀ inp ∈ (lines.drop (j * chunkSize L lines.length)).take (chunkSize L lines.length),
        inp.2.UTC.FormatDay = day) →
      batch.length
        = ((lines.drop (j * chunkSize L lines.length)).take (chunkSize L lines.length)).length ∧
      ∀ r ∈ batch, r.index = "logstash-".toList ++ day) ∧
    (∀ t : Time, ∃ y m d, 1 ≤ m ∧ m ≤ 12 ∧ 1 ≤ d ∧ d ≤ daysIn m y ∧
      civilDays y m d = t.sec / 86400 ∧
      t.UTC.FormatDay = appendInt y 4 ++ '.' :: (appendInt m 2 ++ '.' :: appendInt d 2)) := by
  obtain ⟨n, hn, hcalls, hall, hend⟩ := session_chunks_all L backend s0 lines
  generalize chunkSize L lines.length = K at hn hcalls hall hend ⊢
  have hget : ∀ j c, (session L backend s0 lines).calls[s0.calls.length + j]? = some c →
      j < n ∧ c = ((lines.drop (j * K)).take K).filterMap lineRequest := by
    intro j c hc
    rw [hcalls, List.getElem?_append_right (by omega), Nat.add_sub_cancel_left,
      List.getElem?_map] at hc
    by_cases hj : j < n
    · rw [List.getElem?_range hj] at hc
      simp only [Option.map_some', Option.some.injEq] at hc
      exact ⟨hj, hc.symm⟩
    · rw [List.getElem?_eq_none (by rw [List.length_range]; omega)] at hc
      simp at hc
  refine ⟨⟨n, hn, hcalls, hall, hend⟩, ?_, ?_, ?_⟩
  · intro j i c r hc hr
    obtain ⟨hj, hce⟩ := hget j c hc
    rw [hce] at hr
    obtain ⟨inp, hi, hreq⟩ := filterMap_getElem lineRequest _ i r
      (fun x hx => requestOf_isSome x (hall j hj x hx)) hr
    rw [List.getElem?_take] at hi
    by_cases hiL : i < K
    · rw [if_pos hiL, List.getElem?_drop] at hi
      cases hdoc : parseLine inp.1 with
      | none => simp [lineRequest, hdoc] at hreq
      | some doc =>
        refine ⟨hiL, inp, doc, hi, hdoc, ?_⟩
        simp only [lineRequest, hdoc, Option.map_some', Option.some.injEq] at hreq
        exact hreq.symm
    · rw [if_neg hiL] at hi
      simp at hi
  · intro j c day hc hday
    obtain ⟨hj, hce⟩ := hget j c hc
    constructor
    · rw [hce, length_filterMap_of_isSome lineRequest _
        (fun x hx => requestOf_isSome x (hall j hj x hx))]
    · intro r hr
      rw [hce] at hr
      obtain ⟨inp, hi, hreq⟩ := List.mem_filterMap.mp hr
      cases hdoc : parseLine inp.1 with
      | none => simp [lineRequest, hdoc] at hreq
      | some doc =>
        simp only [lineRequest, hdoc, Option.map_some', Option.some.injEq] at hreq
        rw [← hreq, ← hday inp hi]
  · intro t
    obtain ⟨y, m, d, a1, a2, a3, a4, a5, a6⟩ := FormatDay_civil t
    exact ⟨y, m, d, a1, a2, a3, a4, a5, a6⟩

set_option maxRecDepth 100000 in
/-- C9, witness: with limit 1, a line parsed one second before UTC midnight
and a line parsed one second after it go out in two calls; the request of
the first targets `logstash-2015.05.13`, that of the second
`logstash-2015.05.14`. -/
theorem index_name_fixed_at_parse_witness :
    chunkSize 1 2 = 1 ∧
    (∀ batch, (session 1 createAll Session.init
        [(exampleLine, beforeMidnight), (exampleLine, afterMidnight)]).calls[0]? = some batch →
      batch.length = 1 ∧ ∀ r ∈ batch, r.index = "logstash-2015.05.13".toList) ∧
    (∀ batch, (session 1 createAll Session.init
        [(exampleLine, beforeMidnight), (exampleLine, afterMidnight)]).calls[1]? = some batch →
      batch.length = 1 ∧ ∀ r ∈ batch, r.index = "logstash-2015.05.14".toList) ∧
    (session 1 createAll Session.init
        [(exampleLine, beforeMidnight), (exampleLine, afterMidnight)]).calls
      = [[{ index := "logstash-2015.05.13".toList, typ := "elblog".toList, doc := exampleDoc }],
         [{ index := "logstash-2015.05.14".toList, typ := "elblog".toList,
            doc := exampleDoc }]] := by
  have h := (index_name_fixed_at_parse 1 createAll Session.init
    [(exampleLine, beforeMidnight), (exampleLine, afterMidnight)]).2.2.1
  refine ⟨by decide, ?_, ?_, by decide⟩
  · intro batch hc
    have h1 := h 0 batch "2015.05.13".toList hc (by decide)
    exact ⟨h1.1, fun r hr => by rw [h1.2 r hr]; decide⟩
  · intro batch hc
    have h1 := h 1 batch "2015.05.14".toList hc (by decide)
    exact ⟨h1.1, fun r hr => by rw [h1.2 r hr]; decide⟩

set_option maxRecDepth 100000 in
/-- C9, counterexample: with limit 2, one line parsed one second before UTC
midnight and one parsed one second after it are submitted in one call, and
the two requests of that call target different indices. -/
theorem index_names_differ_in_batch :
    (session 2 createAll Session.init
      [(exampleLine, beforeMidnight), (exampleLine, afterMidnight)]).calls.map
        (fun c => c.map (fun r => r.index))
      = [["logstash-2015.05.13".toList, "logstash-2015.05.14".toList]] := by
  decide

set_option maxRecDepth 100000 in
/-- C10, at the failing input: `num` starts at 1 and is incremented for each
line, so for the stream of the one example line the session logs
`Lines processed: 2`, and for the empty stream `Lines processed: 1`. -/
theorem lines_processed_off_by_one :
    (session 5 createAll Session.init [(exampleLine, noon)]).log
      = [LogEntry.linesProcessed 2] ∧
    (session 5 createAll Session.init []).log = [LogEntry.linesProcessed 1] :=
  ⟨by decide, by decide⟩

end ElbLog
